import Mathlib

/-!
# Verification of `easypy/signals.py` (signal dispatch engine)

A shallow embedding of the signal dispatcher in `easypy/signals.py`:
priority-tiered handler registration, the per-handler call logic
(call-count budget, identifier filtering, exception swallowing), the
trigger loop of `Signal.__call__` (identifier check, expiry sweep,
synchronous dispatch plus asynchronous submission and error collection),
`Signal.unregister` with CPython's remove-during-iteration semantics, and
the enter phase of `ContextManagerSignal.__call__`.

Python objects are modelled by natural-number identities; keyword
arguments are association lists from strings to object identities;
machine behaviour of a registered callable (whether it raises, which
exception it raises) is part of the callable's model since the engine
treats callables as opaque.
-/

set_option autoImplicit false

namespace Signals

/-- `PRIORITIES = Enum("PRIORITIES", "FIRST NONE LAST")` (signals.py line 16).
Iteration order of the Enum is FIRST, NONE, LAST. -/
inductive PRIORITIES where
  | FIRST
  | NONE
  | LAST
deriving DecidableEq, Repr

/-- The exceptions that can escape a trigger: `MissingIdentifier` (signals.py
lines 23-24, carrying the signal name and the expected keyword), a `KeyError`
from `kwargs[self.identifier]` (line 76), an `AttributeError` from evaluating a
user-defined identifier path (line 81), or an exception raised by a handler's
own callable, surfaced unchanged (lines 98-102); handler exceptions are
identified by a numeric tag. -/
inductive Exc where
  | missingIdentifier (signalName : String) (key : String)
  | keyError (key : String)
  | attrError
  | handlerExc (tag : Nat)
deriving DecidableEq, Repr

/-- Model of a Python callable as the dispatch engine sees it.

* `plain fid isMethod isCM selfObj idPath raisesOnCall excTag`: an underlying
  function/bound method. `fid` is its identity; `isMethod` models
  `inspect.ismethod`; `isCM` models `is_contextmanager`; `selfObj` models
  `__self__` (meaningful when `isMethod`); `idPath` models the optional
  `identifier_path` attribute set by `signal_identifier_path` (a dotted
  attribute path, modelled as the list of attribute names); `raisesOnCall` and
  `excTag` model whether calling it raises and which exception.
* `part f`: a `functools.partial` wrapping `f` (its `.func` attribute is `f`;
  `inspect.ismethod` is false on a partial, it is never a context manager, and
  calling it calls `f`).
* `wraps fid isMethod isCM selfObj idPath raisesOnCall excTag f`: a decorated
  wrapper whose `__wrapped__` attribute is `f` (as set by `functools.wraps`,
  which also copies `identifier_path` into `idPath`); the wrapper has its own
  identity and call behaviour. -/
inductive PyFunc where
  | plain (fid : Nat) (isMethod : Bool) (isCM : Bool) (selfObj : Nat)
      (idPath : Option (List String)) (raisesOnCall : Bool) (excTag : Nat)
  | part (f : PyFunc)
  | wraps (fid : Nat) (isMethod : Bool) (isCM : Bool) (selfObj : Nat)
      (idPath : Option (List String)) (raisesOnCall : Bool) (excTag : Nat)
      (f : PyFunc)
deriving DecidableEq, Repr

namespace PyFunc

/-- `inspect.ismethod`. -/
def pyIsMethod : PyFunc → Bool
  | .plain _ m _ _ _ _ _ => m
  | .part _ => false
  | .wraps _ m _ _ _ _ _ _ => m

/-- `easypy.contexts.is_contextmanager`. -/
def pyIsCM : PyFunc → Bool
  | .plain _ _ cm _ _ _ _ => cm
  | .part _ => false
  | .wraps _ _ cm _ _ _ _ _ => cm

/-- `__self__` of a bound method (0 when not a method; never consulted then). -/
def selfOf : PyFunc → Nat
  | .plain _ _ _ s _ _ _ => s
  | .part _ => 0
  | .wraps _ _ _ s _ _ _ _ => s

/-- The optional `identifier_path` attribute (`hasattr(self._func, 'identifier_path')`). -/
def idPathOf : PyFunc → Option (List String)
  | .plain _ _ _ _ p _ _ => p
  | .part _ => none
  | .wraps _ _ _ _ p _ _ _ => p

/-- `getattr(func, "__wrapped__", None)`. -/
def wrappedAttr : PyFunc → Option PyFunc
  | .wraps _ _ _ _ _ _ _ f => some f
  | _ => none

/-- `getattr(func, "func", None)` (a `functools.partial` exposes `.func`). -/
def funcAttr : PyFunc → Option PyFunc
  | .part f => some f
  | _ => none

/-- Whether actually calling this callable raises. Calling a partial calls the
wrapped callable; a decorated wrapper runs its own body. -/
def raises : PyFunc → Bool
  | .plain _ _ _ _ _ r _ => r
  | .part f => f.raises
  | .wraps _ _ _ _ _ r _ _ => r

/-- The tag of the exception raised when calling this callable raises. -/
def excTagOf : PyFunc → Nat
  | .plain _ _ _ _ _ _ e => e
  | .part f => f.excTagOf
  | .wraps _ _ _ _ _ _ e _ => e

end PyFunc

/-- `get_original_func` (signals.py lines 38-48): unwrap `functools.partial`
layers via `.func` and decoration layers via `__wrapped__`, except that a
context manager wrapping a non-context-manager function is itself the original
(the parenthesised condition on lines 42-45). -/
def get_original_func : PyFunc → PyFunc
  | .part f => get_original_func f
  | .wraps fid m cm s p r e f =>
      if cm && !f.pyIsCM then .wraps fid m cm s p r e f
      else get_original_func f
  | .plain fid m cm s p r e => .plain fid m cm s p r e

/-- The ambient Python object world: `getattr` on object identities (`none`
models `AttributeError` / `hasattr` false) and the type of each object (used
for the `isinstance` check on line 85). -/
structure World where
  attrs : Nat → String → Option Nat
  cls : Nat → Nat

/-- Evaluation of a dotted attribute path against an object, modelling
`eval('obj.%s' % path.strip('.'), dict(obj=handler_object), {})` on line 81;
`none` models an `AttributeError`. -/
def evalPath (w : World) : Nat → List String → Option Nat
  | o, [] => some o
  | o, a :: rest =>
      match w.attrs o a with
      | some v => evalPath w v rest
      | none => none

/-- Python dict lookup in the trigger's keyword arguments. -/
def pyLookup (kwargs : List (String × Nat)) (k : String) : Option Nat :=
  (kwargs.find? (fun kv => kv.1 = k)).map (·.2)

/-- `SignalHandler` (signals.py lines 51-103): the wrapper stored in a
signal's tier lists. `func` is the registered callable (stored wrapped in
`kwargs_resilient`, which only affects keyword passing, not identity or
behaviour, so it is modelled by the callable itself); `origFunc` is
`self._func = get_original_func(func)`; `identifier` is the signal's
identifier keyword, kept only for bound methods; `times` is the remaining
call budget (`none` = unlimited); `idx` is the global registration counter
value (used for logging identity only). -/
structure SignalHandler where
  func : PyFunc
  origFunc : PyFunc
  identifier : Option String
  async : Bool
  priority : PRIORITIES
  times : Option Int
  idx : Nat
deriving DecidableEq, Repr

/-- `SignalHandler.__init__` (lines 55-65): unwraps the callable and discards
the identifier unless the *unwrapped original* callable is a bound method
(`self.identifier = identifier if inspect.ismethod(self._func) else None`,
line 58). -/
def mkSignalHandler (func : PyFunc) (async : Bool) (priority : PRIORITIES)
    (times : Option Int) (identifier : Option String) (idx : Nat) : SignalHandler :=
  let orig := get_original_func func
  { func := func
    origFunc := orig
    identifier := if orig.pyIsMethod then identifier else none
    async := async
    priority := priority
    times := times
    idx := idx }

/-- Result of one `SignalHandler.__call__`: the handler returned without
calling its callable (`skipped`: exhausted budget or identifier mismatch),
called it and returned normally (`returned`, including a swallowed callable
exception), raised before calling the callable (`raisedPre`: `KeyError` on a
missing identifier keyword or `AttributeError` from the identifier path), or
let the callable's exception propagate (`raisedCall`). -/
inductive HOutcome where
  | skipped
  | returned
  | raisedPre (e : Exc)
  | raisedCall (e : Exc)
deriving DecidableEq, Repr

/-- The identifier-filter block of `SignalHandler.__call__` (lines 74-93):
decides whether to proceed (`.ok true`), skip (`.ok false`), or raise
(`KeyError` when the identifier keyword is absent, `AttributeError` when the
identifier path does not resolve). Mirrors the source's cascade: explicit
`identifier_path`, else a same-named attribute on the handler's bound object,
else the bound object itself when its type matches the target's, else the
handler cannot self-identify and is always invoked. -/
def identifierGate (w : World) (origFunc : PyFunc) (ident : String)
    (kwargs : List (String × Nat)) : Except Exc Bool :=
  match pyLookup kwargs ident with
  | none => .error (.keyError ident)
  | some target =>
      let hobj := origFunc.selfOf
      match origFunc.idPathOf with
      | some path =>
          match evalPath w hobj path with
          | none => .error .attrError
          | some v => .ok (v = target)
      | none =>
          match w.attrs hobj ident with
          | some v => .ok (v = target)
          | none =>
              if w.cls hobj = w.cls target then .ok (hobj = target)
              else .ok true

/-- The filter decision of one handler call: the identifier filter applies
only when the stored identifier is truthy (`if self.identifier:` on line 74 —
a non-empty string). -/
def handlerGate (w : World) (h : SignalHandler) (kwargs : List (String × Nat)) :
    Except Exc Bool :=
  match h.identifier with
  | none => .ok true
  | some ident =>
      if ident = "" then .ok true
      else identifierGate w h.origFunc ident kwargs

/-- `SignalHandler.__call__` (lines 70-103): return immediately if the budget
is exhausted; apply the identifier filter; decrement the budget; call the
callable, swallowing its exception if `swallow_exceptions` is set. Returns
the updated handler and the outcome. -/
def SignalHandler.call (w : World) (h : SignalHandler) (swallow : Bool)
    (kwargs : List (String × Nat)) : SignalHandler × HOutcome :=
  if h.times = some 0 then (h, .skipped)
  else
    match handlerGate w h kwargs with
    | .error e => (h, .raisedPre e)
    | .ok false => (h, .skipped)
    | .ok true =>
        let h' := { h with times := h.times.map (· - 1) }
        if h.func.raises then
          if swallow then (h', .returned)
          else (h', .raisedCall (.handlerExc h.func.excTagOf))
        else (h', .returned)

/-- An observable event of the dispatch loop of `Signal.__call__` (lines
192-198): a synchronous in-line call of a handler, or the submission of an
asynchronous handler to the executor, identified by the handler's `idx`. -/
inductive Event where
  | sync (idx : Nat)
  | submitted (idx : Nat)
deriving DecidableEq, Repr

/-- CPython semantics of a `for` loop over a list iterator whose body removes
the current element when `p` holds for it: `list.remove` shifts the elements
after the removed one left by one position while the iterator's index has
already advanced, so the element immediately after a removed one is never
examined (it stays in the list). This is the shape of both `Signal.unregister`
(lines 146-153) and the expiry sweep of `Signal.__call__` (lines 178-180). -/
def unregList {α : Type} (p : α → Bool) : List α → List α
  | [] => []
  | [a] => if p a then [] else [a]
  | a :: b :: rest =>
      if p a then b :: unregList p rest
      else a :: unregList p (b :: rest)

/-- The membership test of `Signal.unregister` (lines 148-152): the passed
callable is compared against the handler's unwrapped original `_func`, its
`__wrapped__` attribute, and its `.func` attribute. -/
def funcMatches (func orig : PyFunc) : Bool :=
  func = orig || some func = orig.wrappedAttr || some func = orig.funcAttr

/-- Whether `Signal.unregister(func)` matches a given stored handler. -/
def handlerMatches (func : PyFunc) (h : SignalHandler) : Bool :=
  funcMatches func h.origFunc

/-- `Signal` (signals.py lines 106-125): the three priority-tier handler
lists (`signal.handlers = {priority: [] for priority in PRIORITIES}`), the
signal-wide async policy (`signal.async`, a tri-state fixed at creation), the
default `swallow_exceptions`, the optional required identifier keyword, and
the `log` flag. The name is kept for the `MissingIdentifier` message; the
short diagnostic `id` and the registry of all signals are logging/lookup
plumbing and are not needed by any dispatch property. -/
structure Signal where
  name : String
  handlersF : List SignalHandler
  handlersN : List SignalHandler
  handlersL : List SignalHandler
  async : Option Bool
  swallow_exceptions : Bool
  identifier : Option String
  log : Bool
deriving DecidableEq, Repr

namespace Signal

/-- The tier list for a priority (the `handlers` dict). -/
def getTier (s : Signal) : PRIORITIES → List SignalHandler
  | .FIRST => s.handlersF
  | .NONE => s.handlersN
  | .LAST => s.handlersL

/-- Functional update of one tier list. -/
def setTier (s : Signal) : PRIORITIES → List SignalHandler → Signal
  | .FIRST, l => { s with handlersF := l }
  | .NONE, l => { s with handlersN := l }
  | .LAST, l => { s with handlersL := l }

/-- `Signal.iter_handlers` (lines 127-128): chain the tier lists in Enum
order FIRST, NONE, LAST. -/
def iter_handlers (s : Signal) : List SignalHandler :=
  s.handlersF ++ s.handlersN ++ s.handlersL

/-- A freshly created signal (`Signal.__new__`, lines 110-125): empty tiers,
no identifier. -/
def fresh (name : String) (async : Option Bool) (swallow_exceptions : Bool)
    (log : Bool) : Signal :=
  { name := name
    handlersF := []
    handlersN := []
    handlersL := []
    async := async
    swallow_exceptions := swallow_exceptions
    identifier := none
    log := log }

/-- `Signal.register` (lines 134-144): resolve the handler's async flag
against the signal's policy — an unset flag inherits the policy (defaulting to
false), and an explicit flag contradicting a set policy trips the assertion
`assert self.async == async` (the ConfigurationConflict error). On success the
new handler is appended to its priority tier. `idx` stands for
`next(SignalHandler._idx_gen)`. Note the signal's own `async` attribute is
never modified by registration. -/
def register (s : Signal) (func : PyFunc) (asyncArg : Option Bool)
    (priority : PRIORITIES) (times : Option Int) (idx : Nat) :
    Except String Signal :=
  match asyncArg with
  | none =>
      let a := match s.async with
        | none => false
        | some b => b
      .ok (s.setTier priority
        (s.getTier priority ++ [mkSignalHandler func a priority times s.identifier idx]))
  | some a =>
      match s.async with
      | none =>
          .ok (s.setTier priority
            (s.getTier priority ++ [mkSignalHandler func a priority times s.identifier idx]))
      | some b =>
          if b = a then
            .ok (s.setTier priority
              (s.getTier priority ++ [mkSignalHandler func a priority times s.identifier idx]))
          else .error "ConfigurationConflict"

/-- `Signal.unregister` (lines 146-153): iterate the live tier lists and
`remove_handler` every matching wrapper. Each removal happens in the matched
handler's own tier list at the iterator's current position, so the wrapper
immediately after a removed one is skipped (see `unregList`); the three tier
iterators are independent. -/
def unregister (s : Signal) (func : PyFunc) : Signal :=
  { s with
    handlersF := unregList (handlerMatches func) s.handlersF
    handlersN := unregList (handlerMatches func) s.handlersN
    handlersL := unregList (handlerMatches func) s.handlersL }

/-- The expiry sweep of `Signal.__call__` (lines 178-180): remove every
handler whose budget is exhausted, again with the live-iterator semantics of
`unregList` (removal happens at the iterator's current position in the
handler's own tier). -/
def sweep (s : Signal) : Signal :=
  { s with
    handlersF := unregList (fun h => h.times = some 0) s.handlersF
    handlersN := unregList (fun h => h.times = some 0) s.handlersN
    handlersL := unregList (fun h => h.times = some 0) s.handlersL }

end Signal

/-- The dispatch loop of `Signal.__call__` (lines 192-198) over the chained
handler list: an asynchronous handler is submitted to the executor (its
outcome materialises in its future); a synchronous handler runs in line, and
an exception escaping it aborts the loop immediately, leaving the remaining
handlers untouched. Returns the updated handlers (same length and order),
the event trace, the per-handler outcomes `(idx, isAsync, outcome)` in
processing order, and the exception propagating out of the loop, if any. -/
def dispatchList (w : World) (swallow : Bool) (kwargs : List (String × Nat)) :
    List SignalHandler →
    List SignalHandler × List Event × List (Nat × Bool × HOutcome) × Option Exc
  | [] => ([], [], [], none)
  | h :: rest =>
      let c := h.call w swallow kwargs
      if h.async then
        let r := dispatchList w swallow kwargs rest
        (c.1 :: r.1, .submitted h.idx :: r.2.1, (h.idx, true, c.2) :: r.2.2.1, r.2.2.2)
      else
        match c.2 with
        | .raisedPre e => (c.1 :: rest, [.sync h.idx], [(h.idx, false, .raisedPre e)], some e)
        | .raisedCall e => (c.1 :: rest, [.sync h.idx], [(h.idx, false, .raisedCall e)], some e)
        | o =>
            let r := dispatchList w swallow kwargs rest
            (c.1 :: r.1, .sync h.idx :: r.2.1, (h.idx, false, o) :: r.2.2.1, r.2.2.2)

/-- The exception carried by a future (an asynchronous handler's outcome):
`future.result()` re-raises whatever escaped the handler. -/
def futureExc : HOutcome → Option Exc
  | .raisedPre e => some e
  | .raisedCall e => some e
  | _ => none

/-- The asynchronous-handler outcomes, in the given completion order
(`completion` lists positions into the submission-ordered future list), that
carry an exception. -/
def completionFailures (futs : List (Nat × Bool × HOutcome)) (completion : List Nat) :
    List Exc :=
  (completion.filterMap (fun i => futs.get? i)).filterMap (fun o => futureExc o.2.2)

/-- Modelled from the spec: `Futures.executor` / `as_completed` from
`easypy.concurrency` are not under `src/`. Per the spec, the trigger blocks
until every submitted asynchronous task completes; `future.result()` raises
the first failure in completion order (lines 200-202), and failures of
other asynchronous handlers are logged, never silently dropped. A synchronous
exception unwinding through the `ExitStack` takes precedence; the executor's
shutdown still waits for the submitted tasks and their failures are logged. -/
def resolveFutures (futs : List (Nat × Bool × HOutcome)) (completion : List Nat)
    (syncErr : Option Exc) : Option Exc × List Exc :=
  match syncErr with
  | some e => (some e, completionFailures futs completion)
  | none =>
      match completionFailures futs completion with
      | [] => (none, [])
      | e :: es => (some e, es)

/-- The observable result of one trigger: the signal afterwards (handler
budgets decremented, expired handlers swept), the event trace, the
per-handler outcomes in processing order, the exception reaching the caller,
and the asynchronous failures that were logged rather than raised. -/
structure TriggerResult where
  sig : Signal
  trace : List Event
  outs : List (Nat × Bool × HOutcome)
  raised : Option Exc
  logged : List Exc
deriving DecidableEq, Repr

/-- The body of `Signal.__call__` after the identifier check (lines 171-202):
expiry sweep, `swallow_exceptions` resolution
(`kwargs.setdefault('swallow_exceptions', self.swallow_exceptions)`),
the dispatch loop over the freshly chained handlers, and the wait on the
submitted futures. `completion` is the nondeterministic completion order of
the futures, supplied as a parameter. -/
def Signal.callBody (w : World) (s : Signal) (kwargs : List (String × Nat))
    (swallowOv : Option Bool) (completion : List Nat) : TriggerResult :=
  let s1 := s.sweep
  let swallow := swallowOv.getD s.swallow_exceptions
  let d := dispatchList w swallow kwargs s1.iter_handlers
  let s2 : Signal :=
    { s1 with
      handlersF := d.1.take s1.handlersF.length
      handlersN := (d.1.drop s1.handlersF.length).take s1.handlersN.length
      handlersL := d.1.drop (s1.handlersF.length + s1.handlersN.length) }
  let futs := d.2.2.1.filter (fun o => o.2.1)
  let re := resolveFutures futs completion d.2.2.2
  { sig := s2
    trace := d.2.1
    outs := d.2.2.1
    raised := re.1
    logged := re.2 }

/-- `Signal.__call__` (lines 163-202): raise `MissingIdentifier` — naming the
signal and the expected keyword — when the signal's identifier is truthy (a
non-empty string) and the keyword is absent from `kwargs`; this happens before
the sweep and before any handler runs. Otherwise run the trigger body. -/
def Signal.call (w : World) (s : Signal) (kwargs : List (String × Nat))
    (swallowOv : Option Bool) (completion : List Nat) : TriggerResult :=
  match s.identifier with
  | none => s.callBody w kwargs swallowOv completion
  | some ident =>
      if ident = "" then s.callBody w kwargs swallowOv completion
      else if (pyLookup kwargs ident).isSome then s.callBody w kwargs swallowOv completion
      else
        { sig := s
          trace := []
          outs := []
          raised := some (.missingIdentifier s.name ident)
          logged := [] }

/-- Removal during iteration never lengthens the list. -/
theorem unregList_length_le {α : Type} (p : α → Bool) :
    (l : List α) → (unregList p l).length ≤ l.length
  | [] => by simp [unregList]
  | [a] => by by_cases h : p a <;> simp [unregList, h]
  | a :: b :: rest => by
      have ih1 := unregList_length_le p rest
      have ih2 := unregList_length_le p (b :: rest)
      simp only [List.length_cons] at ih2
      by_cases h : p a <;> simp [unregList, h] <;> omega

/-- The tiers of `Signal.unregister` are the tiers of the signal filtered by
`unregList`. -/
theorem unregister_getTier (s : Signal) (f : PyFunc) (prio : PRIORITIES) :
    (s.unregister f).getTier prio = unregList (handlerMatches f) (s.getTier prio) := by
  cases prio <;> rfl

/-- One body execution of the expiry sweep of `ContextManagerSignal.__call__`
(lines 227-229): unlike the plain signal's sweep this calls
`self.unregister(handler.func)` for the handler at the iterator's position
when its budget is exhausted — a whole-signal removal that can touch any
tier. -/
def cmSweepStep (s : Signal) (hd : SignalHandler) : Signal :=
  if hd.times = some 0 then s.unregister hd.func else s

/-- A sweep step never lengthens any tier. -/
theorem cmSweepStep_length (s : Signal) (hd : SignalHandler) (prio : PRIORITIES) :
    ((cmSweepStep s hd).getTier prio).length ≤ (s.getTier prio).length := by
  unfold cmSweepStep
  by_cases h : hd.times = some 0
  · simp only [h, if_true, unregister_getTier]
    exact unregList_length_le _ _
  · simp [h]

/-- The context-manager expiry sweep over one tier list, following CPython's
live list iterator: the bare index advances by one each step against the
current (possibly shortened) tier list, so the handler after a removed one is
not examined in this pass. The first argument is loop fuel — an upper bound
on the remaining steps (the live list never grows, so the tier's initial
length suffices) that makes the loop structurally recursive. -/
def cmSweepTier : Nat → Signal → PRIORITIES → Nat → Signal
  | 0, s, _, _ => s
  | fuel + 1, s, prio, idx =>
      if h : idx < (s.getTier prio).length then
        cmSweepTier fuel (cmSweepStep s ((s.getTier prio).get ⟨idx, h⟩)) prio (idx + 1)
      else s

/-- The full expiry sweep of the context-manager variant: `chain` exhausts the
FIRST tier's iterator, then creates the NONE tier's iterator from the
then-current list, then the LAST tier's. -/
def cmSweep (s : Signal) : Signal :=
  let s1 := cmSweepTier (s.getTier .FIRST).length s .FIRST 0
  let s2 := cmSweepTier (s1.getTier .NONE).length s1 .NONE 0
  cmSweepTier (s2.getTier .LAST).length s2 .LAST 0

/-- The collection/submission pass of `ContextManagerSignal.__call__` (lines
236-245): asynchronous handlers are gathered into a `MultiObject` and that
group is called (entered) before any synchronous handler runs. Modelled from
the spec: `MultiObject` from `easypy.concurrency` is not under `src/`; per the
spec the group's members are all invoked as one combined scoped resource, and
a failing member surfaces its exception from the group's enter. Returns the
updated handlers (in place), the submission events, and the outcomes. -/
def cmAsyncPhase (w : World) (swallow : Bool) (kwargs : List (String × Nat)) :
    List SignalHandler →
    List SignalHandler × List Event × List (Nat × Bool × HOutcome)
  | [] => ([], [], [])
  | h :: rest =>
      let r := cmAsyncPhase w swallow kwargs rest
      if h.async then
        let c := h.call w swallow kwargs
        (c.1 :: r.1, .submitted h.idx :: r.2.1, (h.idx, true, c.2) :: r.2.2)
      else (h :: r.1, r.2.1, r.2.2)

/-- The synchronous loop of `ContextManagerSignal.__call__` (lines 246-249):
each synchronous handler is invoked in order; an escaping exception aborts the
loop (asynchronous handlers were already invoked in the group phase and are
passed over here). Truthy results are entered onto the exit stack, which does
not affect handler state and is not modelled further. -/
def cmSyncPhase (w : World) (swallow : Bool) (kwargs : List (String × Nat)) :
    List SignalHandler →
    List SignalHandler × List Event × List (Nat × Bool × HOutcome) × Option Exc
  | [] => ([], [], [], none)
  | h :: rest =>
      if h.async then
        let r := cmSyncPhase w swallow kwargs rest
        (h :: r.1, r.2.1, r.2.2.1, r.2.2.2)
      else
        let c := h.call w swallow kwargs
        match c.2 with
        | .raisedPre e => (c.1 :: rest, [.sync h.idx], [(h.idx, false, .raisedPre e)], some e)
        | .raisedCall e => (c.1 :: rest, [.sync h.idx], [(h.idx, false, .raisedCall e)], some e)
        | o =>
            let r := cmSyncPhase w swallow kwargs rest
            (c.1 :: r.1, .sync h.idx :: r.2.1, (h.idx, false, o) :: r.2.2.1, r.2.2.2)

/-- The enter phase of `ContextManagerSignal.__call__` (lines 217-250): log
(observability only), expiry sweep via `unregister`, `swallow_exceptions`
resolution, then the asynchronous group enter followed by the synchronous
loop. There is no identifier check in this variant — lines 218-231 go straight
from logging to the sweep, unlike `Signal.__call__` lines 163-169. -/
def cmEnter (w : World) (s : Signal) (kwargs : List (String × Nat))
    (swallowOv : Option Bool) : TriggerResult :=
  let s1 := cmSweep s
  let swallow := swallowOv.getD s.swallow_exceptions
  let a := cmAsyncPhase w swallow kwargs s1.iter_handlers
  let rebuild : List SignalHandler → Signal := fun hs =>
    { s1 with
      handlersF := hs.take s1.handlersF.length
      handlersN := (hs.drop s1.handlersF.length).take s1.handlersN.length
      handlersL := hs.drop (s1.handlersF.length + s1.handlersN.length) }
  match (a.2.2.filterMap (fun o => futureExc o.2.2)).head? with
  | some e =>
      { sig := rebuild a.1
        trace := a.2.1
        outs := a.2.2
        raised := some e
        logged := [] }
  | none =>
      let d := cmSyncPhase w swallow kwargs a.1
      { sig := rebuild d.1
        trace := a.2.1 ++ d.2.1
        outs := a.2.2 ++ d.2.2.1
        raised := d.2.2.2
        logged := [] }

/-- A handler as seen by the dispatch loop when handler code may itself call
`Signal.unregister` on the signal being dispatched: `hid` is its identity for
the invocation trace, `func` the registered callable, and `effect` models a
callable whose body calls `unregister(f)` on the same signal (`none` for a
callable with no such effect). -/
structure DynHandler where
  hid : Nat
  func : PyFunc
  effect : Option PyFunc
deriving DecidableEq, Repr

/-- `Signal.unregister`'s match, applied to a dynamic handler's unwrapped
original callable. -/
def dynMatches (f : PyFunc) (d : DynHandler) : Bool :=
  funcMatches f (get_original_func d.func)

/-- `Signal.unregister` restricted to one tier list of dynamic handlers. -/
def dynUnregister (f : PyFunc) (l : List DynHandler) : List DynHandler :=
  unregList (dynMatches f) l

/-- The mutation a handler's body applies to the live handler list when it
runs: its unregistration effect, if it has one. -/
def dispatchSimStep (l : List DynHandler) (d : DynHandler) : List DynHandler :=
  match d.effect with
  | some f => dynUnregister f l
  | none => l

/-- A handler body's unregistration never lengthens the list. -/
theorem dispatchSimStep_length (l : List DynHandler) (d : DynHandler) :
    (dispatchSimStep l d).length ≤ l.length := by
  unfold dispatchSimStep
  cases d.effect
  · exact Nat.le_refl _
  · exact unregList_length_le _ _

/-- The dispatch loop of `Signal.__call__` (lines 192-198) over one priority
tier, with CPython live-iterator semantics, when a handler's body may
unregister another handler of the same tier mid-dispatch: the iterator holds a
bare index into the current list; invoking the handler at the index applies
its unregistration effect to the live list, then the index advances. Removals
in other tiers do not move this tier's iterator, so one tier exhibits all the
iterator interaction. The first argument is loop fuel — an upper bound on the
remaining steps (the live list never grows) that makes the loop structurally
recursive. Returns the sequence of invoked handler identities. -/
def dispatchSim : Nat → List DynHandler → Nat → List Nat → List Nat
  | 0, _, _, acc => acc
  | fuel + 1, l, idx, acc =>
      if h : idx < l.length then
        dispatchSim fuel (dispatchSimStep l (l.get ⟨idx, h⟩)) (idx + 1)
          (acc ++ [(l.get ⟨idx, h⟩).hid])
      else acc

/-- One full dispatch over a tier list with mid-dispatch unregistration:
start the iterator at the head with enough fuel for every step. -/
def dispatchRun (l : List DynHandler) : List Nat :=
  dispatchSim l.length l 0 []

/-! ## Helper notions and lemmas -/

/-- Whether an exception is a `MissingIdentifier`. -/
def isMissingExc : Exc → Bool
  | .missingIdentifier _ _ => true
  | _ => false

/-- Whether an optional exception is a `MissingIdentifier`. -/
def isMissingIdentifier : Option Exc → Bool
  | some e => isMissingExc e
  | none => false

/-- Whether a handler outcome means the underlying callable was actually
called (equivalently, the budget decrement on line 96 happened). -/
def invokedOut : HOutcome → Bool
  | .returned => true
  | .raisedCall _ => true
  | _ => false

/-- A handler whose identifier filter is absent and whose budget is not
exhausted always calls its callable: the result is the decremented handler
and `returned`, unless the callable raises unswallowed. -/
theorem SignalHandler.call_clean (w : World) (h : SignalHandler) (sw : Bool)
    (kw : List (String × Nat)) (hid : h.identifier = none) (ht : h.times ≠ some 0) :
    h.call w sw kw =
      ({ h with times := h.times.map (· - 1) },
       if h.func.raises && !sw then .raisedCall (.handlerExc h.func.excTagOf)
       else .returned) := by
  have hg : handlerGate w h kw = .ok true := by simp [handlerGate, hid]
  unfold SignalHandler.call
  simp only [ht, if_false, hg]
  by_cases hr : h.func.raises <;> by_cases hsw : sw <;> simp [hr, hsw]

/-- A handler call never changes the handler's registration index. -/
theorem SignalHandler.call_idx (w : World) (h : SignalHandler) (sw : Bool)
    (kw : List (String × Nat)) : ((h.call w sw kw).1).idx = h.idx := by
  unfold SignalHandler.call
  by_cases h0 : h.times = some 0
  · simp [h0]
  · rcases hg : handlerGate w h kw with e | b
    · simp [h0, hg]
    · cases b <;>
        by_cases hr : h.func.raises <;> by_cases hsw : sw <;> simp [h0, hg, hr, hsw]

/-- A handler call decrements the budget exactly when the callable was
invoked, and the callable is never invoked on an exhausted budget. -/
theorem SignalHandler.call_times (w : World) (h : SignalHandler) (sw : Bool)
    (kw : List (String × Nat)) :
    (h.call w sw kw).1.times
        = (if invokedOut (h.call w sw kw).2 then h.times.map (· - 1) else h.times) ∧
    (invokedOut (h.call w sw kw).2 = true → h.times ≠ some 0) := by
  unfold SignalHandler.call
  by_cases h0 : h.times = some 0
  · simp [h0, invokedOut]
  · rcases hg : handlerGate w h kw with e | b
    · simp [h0, hg, invokedOut]
    · cases b <;>
        by_cases hr : h.func.raises <;> by_cases hsw : sw <;>
          simp [h0, hg, hr, hsw, invokedOut]

/-- The identifier filter raises only `KeyError` or `AttributeError`. -/
theorem identifierGate_not_missing (w : World) (of : PyFunc) (ident : String)
    (kw : List (String × Nat)) (a b : String) :
    identifierGate w of ident kw ≠ .error (.missingIdentifier a b) := by
  unfold identifierGate
  rcases hl : pyLookup kw ident with _ | target
  · simp [hl]
  · rcases hp : of.idPathOf with _ | path
    · rcases ha : w.attrs of.selfOf ident with _ | v
      · by_cases hc : w.cls of.selfOf = w.cls target <;> simp [hl, hp, ha, hc]
      · simp [hl, hp, ha]
    · rcases he : evalPath w of.selfOf path with _ | v <;> simp [hl, hp, he]

/-- The handler-level filter raises only `KeyError` or `AttributeError`. -/
theorem handlerGate_not_missing (w : World) (h : SignalHandler)
    (kw : List (String × Nat)) (a b : String) :
    handlerGate w h kw ≠ .error (.missingIdentifier a b) := by
  unfold handlerGate
  repeat' split
  · simp
  · simp
  · exact identifierGate_not_missing w h.origFunc _ kw a b

/-- No exception escaping a handler call is a `MissingIdentifier`: the
handler raises only `KeyError`, `AttributeError`, or the callable's own
exception. -/
theorem SignalHandler.call_exc_not_missing (w : World) (h : SignalHandler) (sw : Bool)
    (kw : List (String × Nat)) :
    isMissingIdentifier (futureExc (h.call w sw kw).2) = false := by
  unfold SignalHandler.call
  by_cases h0 : h.times = some 0
  · simp [h0, futureExc, isMissingIdentifier]
  · rcases hg : handlerGate w h kw with e | b
    · have hnm := handlerGate_not_missing w h kw
      simp only [h0, if_false, hg, futureExc, isMissingIdentifier]
      cases e <;> simp_all [isMissingExc]
    · cases b <;>
        by_cases hr : h.func.raises <;> by_cases hsw : sw <;>
          simp [h0, hg, hr, hsw, futureExc, isMissingIdentifier, isMissingExc]

/-- Removal during iteration is a sublist operation. -/
theorem unregList_sublist {α : Type} (p : α → Bool) :
    (l : List α) → List.Sublist (unregList p l) l
  | [] => by simp [unregList]
  | [a] => by
      by_cases h : p a <;> simp [unregList, h]
  | a :: b :: rest => by
      by_cases h : p a
      · simpa [unregList, h] using List.Sublist.cons a ((unregList_sublist p rest).cons₂ b)
      · simpa [unregList, h] using (unregList_sublist p (b :: rest)).cons₂ a

/-- When nothing matches, removal during iteration is the identity. -/
theorem unregList_eq_of_no_match {α : Type} (p : α → Bool) :
    (l : List α) → (∀ a ∈ l, p a = false) → unregList p l = l
  | [], _ => by simp [unregList]
  | [a], hno => by simp [unregList, hno a (by simp)]
  | a :: b :: rest, hno => by
      have ha := hno a (by simp)
      have ih := unregList_eq_of_no_match p (b :: rest) (fun x hx => hno x (by simp [hx]))
      simp [unregList, ha, ih]

/-- An element the predicate rejects survives removal during iteration. -/
theorem mem_unregList_of_not_p {α : Type} (p : α → Bool) :
    (l : List α) → ∀ a ∈ l, p a = false → a ∈ unregList p l
  | [], a, ha, _ => by simp at ha
  | [b], a, ha, hp => by
      simp at ha
      subst ha
      simp [unregList, hp]
  | b :: c :: rest, a, ha, hp => by
      by_cases hb : p b
      · simp only [unregList, hb, if_true]
        rcases List.mem_cons.mp ha with h1 | h1
        · subst h1; simp_all
        · rcases List.mem_cons.mp h1 with h2 | h2
          · subst h2; simp
          · exact List.mem_cons_of_mem _ (mem_unregList_of_not_p p rest a h2 hp)
      · simp only [unregList, hb, if_false]
        rcases List.mem_cons.mp ha with h1 | h1
        · subst h1; simp
        · exact List.mem_cons_of_mem _ (mem_unregList_of_not_p p (c :: rest) a h1 hp)

/-- With exactly one match (by position), removal during iteration removes
exactly that element. -/
theorem unregList_unique {α : Type} (p : α → Bool) :
    (pre : List α) → (a : α) → (post : List α) →
    p a = true → (∀ x ∈ pre, p x = false) → (∀ x ∈ post, p x = false) →
    unregList p (pre ++ a :: post) = pre ++ post
  | [], a, post, hp, _, hpost => by
      match post with
      | [] => simp [unregList, hp]
      | b :: rest =>
          have := unregList_eq_of_no_match p rest (fun x hx => hpost x (by simp [hx]))
          simp [unregList, hp, this]
  | x :: pre', a, post, hp, hpre, hpost => by
      have hx := hpre x (by simp)
      have ih := unregList_unique p pre' a post hp (fun y hy => hpre y (by simp [hy])) hpost
      match hm : pre' ++ a :: post with
      | [] => exact absurd hm (by simp)
      | z :: rest =>
          rw [List.cons_append, hm]
          simp only [unregList, hx, if_false]
          rw [← hm, ih]
          simp

/-- A handler in a tier list is among the signal's chained handlers. -/
theorem mem_iter_of_tier {s : Signal} (prio : PRIORITIES) {h : SignalHandler}
    (hm : h ∈ s.getTier prio) : h ∈ s.iter_handlers := by
  cases prio <;> simp_all [Signal.getTier, Signal.iter_handlers]

/-- The sweep of `Signal.__call__` acts tierwise as removal during
iteration. -/
theorem sweep_getTier (s : Signal) (prio : PRIORITIES) :
    s.sweep.getTier prio
      = unregList (fun h => h.times = some 0) (s.getTier prio) := by
  cases prio <;> rfl

/-- When no handler's budget is exhausted, the sweep changes nothing. -/
theorem sweep_eq_self (s : Signal)
    (hno : ∀ h ∈ s.iter_handlers, h.times ≠ some 0) : s.sweep = s := by
  unfold Signal.sweep
  have hF := unregList_eq_of_no_match (fun h : SignalHandler => h.times = some 0)
    s.handlersF (fun a ha => by
      simpa using hno a (mem_iter_of_tier PRIORITIES.FIRST ha))
  have hN := unregList_eq_of_no_match (fun h : SignalHandler => h.times = some 0)
    s.handlersN (fun a ha => by
      simpa using hno a (mem_iter_of_tier PRIORITIES.NONE ha))
  have hL := unregList_eq_of_no_match (fun h : SignalHandler => h.times = some 0)
    s.handlersL (fun a ha => by
      simpa using hno a (mem_iter_of_tier PRIORITIES.LAST ha))
  simp [hF, hN, hL]

/-- Splitting a list at two fences and re-concatenating reconstructs it. -/
theorem take_drop_reconstruct {α : Type} (l : List α) (a b : Nat) :
    l.take a ++ ((l.drop a).take b ++ l.drop (a + b)) = l := by
  have h1 : l.drop (a + b) = (l.drop a).drop b := by
    rw [List.drop_drop, Nat.add_comm]
  rw [h1, List.take_append_drop, List.take_append_drop]

/-- The signal rebuilt by `Signal.callBody` chains to exactly the dispatch
loop's updated handler list. -/
theorem callBody_sig_iter (w : World) (s : Signal) (kw : List (String × Nat))
    (sOv : Option Bool) (comp : List Nat) :
    (Signal.callBody w s kw sOv comp).sig.iter_handlers
      = (dispatchList w (sOv.getD s.swallow_exceptions) kw s.sweep.iter_handlers).1 := by
  unfold Signal.callBody
  simp only [Signal.iter_handlers]
  rw [List.append_assoc]
  exact take_drop_reconstruct _ _ _

/-- `Signal.__call__` with no identifier configured goes straight to the
trigger body. -/
theorem Signal.call_eq_body (w : World) (s : Signal) (kw : List (String × Nat))
    (sOv : Option Bool) (comp : List Nat) (hid : s.identifier = none) :
    Signal.call w s kw sOv comp = Signal.callBody w s kw sOv comp := by
  unfold Signal.call
  simp [hid]

/-- The dispatch loop over handlers that are unfiltered, unexhausted, and
(when synchronous) non-aborting: every handler is processed in order — its
budget decremented, its event recorded — and no exception escapes the loop. -/
theorem dispatchList_clean (w : World) (sw : Bool) (kw : List (String × Nat)) :
    ∀ l : List SignalHandler,
    (∀ h ∈ l, h.identifier = none ∧ h.times ≠ some 0 ∧
        (h.async = false → (h.func.raises && !sw) = false)) →
    dispatchList w sw kw l =
      (l.map (fun h => { h with times := h.times.map (· - 1) }),
       l.map (fun h => if h.async then Event.submitted h.idx else Event.sync h.idx),
       l.map (fun h => (h.idx, h.async,
          if h.func.raises && !sw then HOutcome.raisedCall (.handlerExc h.func.excTagOf)
          else HOutcome.returned)),
       none)
  | [], _ => by simp [dispatchList]
  | h :: rest, hcl => by
      obtain ⟨hid, ht, hs⟩ := hcl h (by simp)
      have hc := SignalHandler.call_clean w h sw kw hid ht
      have ih := dispatchList_clean w sw kw rest (fun x hx => hcl x (by simp [hx]))
      by_cases ha : h.async
      · simp [dispatchList, ha, hc, ih]
      · have hr : (h.func.raises && !sw) = false := hs (by simpa using ha)
        have hr' : ¬(h.func.raises = true ∧ sw = false) := by
          intro hcon
          simp [hcon.1, hcon.2] at hr
        simp [dispatchList, ha, hc, ih, hr, hr']

/-- The dispatch loop when a synchronous handler's callable raises without
swallowing: the handlers before it run normally, the failing handler's
exception escapes unchanged, and the handlers after it are not processed. -/
theorem dispatchList_abort (w : World) (kw : List (String × Nat))
    (hBad : SignalHandler) (hidB : hBad.identifier = none)
    (htB : hBad.times ≠ some 0) (haB : hBad.async = false)
    (hrB : hBad.func.raises = true) :
    ∀ (pre post : List SignalHandler),
    (∀ h ∈ pre, h.identifier = none ∧ h.times ≠ some 0 ∧ h.async = false ∧
        h.func.raises = false) →
    dispatchList w false kw (pre ++ hBad :: post) =
      (pre.map (fun h => { h with times := h.times.map (· - 1) }) ++
        ({ hBad with times := hBad.times.map (· - 1) } :: post),
       pre.map (fun h => Event.sync h.idx) ++ [Event.sync hBad.idx],
       pre.map (fun h => (h.idx, false, HOutcome.returned)) ++
         [(hBad.idx, false, HOutcome.raisedCall (.handlerExc hBad.func.excTagOf))],
       some (.handlerExc hBad.func.excTagOf))
  | [], post, _ => by
      have hc := SignalHandler.call_clean w hBad false kw hidB htB
      simp [dispatchList, haB, hc, hrB]
  | h :: pre', post, hcl => by
      obtain ⟨hid, ht, ha, hr⟩ := hcl h (by simp)
      have hc := SignalHandler.call_clean w h false kw hid ht
      have ih := dispatchList_abort w kw hBad hidB htB haB hrB pre' post
        (fun x hx => hcl x (by simp [hx]))
      simp [dispatchList, ha, hc, hr, ih]

/-! ## Registration sequences -/

/-- One registration request: the arguments of one `Signal.register` call. -/
structure RegSpec where
  func : PyFunc
  asyncArg : Option Bool
  priority : PRIORITIES
  times : Option Int
deriving DecidableEq, Repr

/-- The async flag a successful registration resolves (lines 137-140): an
unset flag inherits the signal's policy, defaulting to false; an explicit
flag is kept. -/
def resolveAsync (pol : Option Bool) : Option Bool → Bool
  | none => pol.getD false
  | some a => a

/-- Register a list of handlers in order, threading the global `_idx_gen`
counter. -/
def registerAll (s : Signal) (idx : Nat) : List RegSpec → Except String Signal
  | [] => .ok s
  | sp :: rest =>
      match s.register sp.func sp.asyncArg sp.priority sp.times idx with
      | .ok s' => registerAll s' (idx + 1) rest
      | .error e => .error e

/-- On a signal without an async policy, registration always succeeds and
appends the wrapped handler to its tier. -/
theorem register_async_none (s : Signal) (f : PyFunc) (aArg : Option Bool)
    (p : PRIORITIES) (t : Option Int) (idx : Nat) (hpol : s.async = none) :
    s.register f aArg p t idx =
      .ok (s.setTier p (s.getTier p ++
        [mkSignalHandler f (resolveAsync none aArg) p t s.identifier idx])) := by
  unfold Signal.register
  cases aArg <;> simp [hpol, resolveAsync]

/-- Updating one tier leaves the signal's scalar fields alone. -/
theorem setTier_fields (s : Signal) (p : PRIORITIES) (l : List SignalHandler) :
    (s.setTier p l).async = s.async ∧ (s.setTier p l).identifier = s.identifier ∧
    (s.setTier p l).name = s.name ∧
    (s.setTier p l).swallow_exceptions = s.swallow_exceptions := by
  cases p <;> simp [Signal.setTier]

/-- The handlers a registration sequence contributes to one tier, in
registration order, with the source's index numbering. -/
def expectedTier (idn : Option String) (p : PRIORITIES) :
    Nat → List RegSpec → List SignalHandler
  | _, [] => []
  | idx, sp :: rest =>
      (if sp.priority = p then
        [mkSignalHandler sp.func (resolveAsync none sp.asyncArg) sp.priority
          sp.times idn idx]
      else []) ++ expectedTier idn p (idx + 1) rest

/-- A registration sequence on a policy-free signal never fails, and each
tier receives exactly its own registrations, appended in order. -/
theorem registerAll_async_none (idn : Option String) :
    ∀ (specs : List RegSpec) (s : Signal) (idx : Nat),
    s.async = none → s.identifier = idn →
    registerAll s idx specs = .ok { s with
      handlersF := s.handlersF ++ expectedTier idn .FIRST idx specs,
      handlersN := s.handlersN ++ expectedTier idn .NONE idx specs,
      handlersL := s.handlersL ++ expectedTier idn .LAST idx specs }
  | [], s, idx, hpol, hid => by simp [registerAll, expectedTier]
  | sp :: rest, s, idx, hpol, hid => by
      rw [registerAll, register_async_none s sp.func sp.asyncArg sp.priority sp.times idx hpol]
      dsimp only
      have hfields := setTier_fields s sp.priority (s.getTier sp.priority ++
        [mkSignalHandler sp.func (resolveAsync none sp.asyncArg) sp.priority
          sp.times s.identifier idx])
      rw [registerAll_async_none idn rest _ (idx + 1)
        (by rw [hfields.1, hpol]) (by rw [hfields.2.1, hid])]
      cases hp : sp.priority <;>
        simp [Signal.setTier, Signal.getTier, expectedTier, hp, hid]

/-- The dispatch events a registration sequence contributes to one tier:
a submission for a handler resolved asynchronous, an in-line call
otherwise, indexed by the registration counter. -/
def expectedEvents (p : PRIORITIES) : Nat → List RegSpec → List Event
  | _, [] => []
  | idx, sp :: rest =>
      (if sp.priority = p then
        [if resolveAsync none sp.asyncArg then Event.submitted idx
         else Event.sync idx]
      else []) ++ expectedEvents p (idx + 1) rest

/-- The trigger order the spec prescribes: tier order FIRST, NONE, LAST,
and registration order within each tier. -/
def registrationTrace (idx : Nat) (specs : List RegSpec) : List Event :=
  expectedEvents .FIRST idx specs ++ expectedEvents .NONE idx specs ++
    expectedEvents .LAST idx specs

/-- Mapping each expected handler to its dispatch event yields the expected
events. -/
theorem map_event_expectedTier (idn : Option String) (p : PRIORITIES) :
    ∀ (idx : Nat) (specs : List RegSpec),
    (expectedTier idn p idx specs).map
        (fun h => if h.async then Event.submitted h.idx else Event.sync h.idx)
      = expectedEvents p idx specs
  | _, [] => by simp [expectedTier, expectedEvents]
  | idx, sp :: rest => by
      have ih := map_event_expectedTier idn p (idx + 1) rest
      by_cases hp : sp.priority = p <;>
        simp [expectedTier, expectedEvents, hp, ih, mkSignalHandler]

/-- Every handler contributed by a registration sequence is the wrapper of
one of its requests. -/
theorem mem_expectedTier (idn : Option String) (p : PRIORITIES) :
    ∀ (idx : Nat) (specs : List RegSpec) (h : SignalHandler),
    h ∈ expectedTier idn p idx specs →
    ∃ sp ∈ specs, ∃ k, h = mkSignalHandler sp.func (resolveAsync none sp.asyncArg)
      sp.priority sp.times idn k
  | idx, [], h => by simp [expectedTier]
  | idx, sp :: rest, h => by
      intro hm
      by_cases hp : sp.priority = p
      · simp only [expectedTier, hp, if_true, List.mem_append, List.mem_singleton] at hm
        rcases hm with hm | hm
        · exact ⟨sp, by simp, idx, by rw [hp]; exact hm⟩
        · obtain ⟨sp', hsp', k, hk⟩ := mem_expectedTier idn p (idx + 1) rest h hm
          exact ⟨sp', by simp [hsp'], k, hk⟩
      · simp only [expectedTier, hp, if_false, List.nil_append] at hm
        obtain ⟨sp', hsp', k, hk⟩ := mem_expectedTier idn p (idx + 1) rest h hm
        exact ⟨sp', by simp [hsp'], k, hk⟩

/-- A wrapper constructed with no identifier keyword stores no identifier
filter. -/
theorem mkSignalHandler_identifier_none (f : PyFunc) (a : Bool) (p : PRIORITIES)
    (t : Option Int) (idx : Nat) :
    (mkSignalHandler f a p t none idx).identifier = none := by
  simp [mkSignalHandler]

/-! ## Projections of the trigger body -/

/-- The trigger body's event trace is the dispatch loop's trace over the
swept handlers. -/
theorem callBody_trace (w : World) (s : Signal) (kw : List (String × Nat))
    (sOv : Option Bool) (comp : List Nat) :
    (Signal.callBody w s kw sOv comp).trace
      = (dispatchList w (sOv.getD s.swallow_exceptions) kw s.sweep.iter_handlers).2.1 :=
  rfl

/-- The trigger body's outcome list is the dispatch loop's. -/
theorem callBody_outs (w : World) (s : Signal) (kw : List (String × Nat))
    (sOv : Option Bool) (comp : List Nat) :
    (Signal.callBody w s kw sOv comp).outs
      = (dispatchList w (sOv.getD s.swallow_exceptions) kw s.sweep.iter_handlers).2.2.1 :=
  rfl

/-- The trigger body's raised exception comes from the future resolution of
the dispatch loop's results. -/
theorem callBody_raised (w : World) (s : Signal) (kw : List (String × Nat))
    (sOv : Option Bool) (comp : List Nat) :
    (Signal.callBody w s kw sOv comp).raised
      = (resolveFutures
          (((dispatchList w (sOv.getD s.swallow_exceptions) kw
              s.sweep.iter_handlers).2.2.1).filter (fun o => o.2.1)) comp
          (dispatchList w (sOv.getD s.swallow_exceptions) kw
            s.sweep.iter_handlers).2.2.2).1 :=
  rfl

/-- The trigger body's logged failures come from the future resolution of
the dispatch loop's results. -/
theorem callBody_logged (w : World) (s : Signal) (kw : List (String × Nat))
    (sOv : Option Bool) (comp : List Nat) :
    (Signal.callBody w s kw sOv comp).logged
      = (resolveFutures
          (((dispatchList w (sOv.getD s.swallow_exceptions) kw
              s.sweep.iter_handlers).2.2.1).filter (fun o => o.2.1)) comp
          (dispatchList w (sOv.getD s.swallow_exceptions) kw
            s.sweep.iter_handlers).2.2.2).2 :=
  rfl

/-! ## Concrete fixtures used by witnesses and counterexamples -/

/-- A plain non-method callable that returns normally. -/
def fA : PyFunc := .plain 1 false false 0 none false 0

/-- Another plain non-method callable that returns normally. -/
def fB : PyFunc := .plain 2 false false 0 none false 0

/-- A plain callable whose call raises the exception tagged 7. -/
def fC : PyFunc := .plain 3 false false 0 none true 7

/-- A plain callable whose call raises the exception tagged 8. -/
def fD : PyFunc := .plain 4 false false 0 none true 8

/-- A bound method of the object 77. -/
def fM : PyFunc := .plain 9 true false 77 none false 0

/-- A world with no object attributes and a single class. -/
def trivWorld : World := { attrs := fun _ _ => none, cls := fun _ => 0 }

/-! ## C1 — trigger order -/

/-- Handlers produced by a registration sequence with no identifier carry no
filter and keep their requested budget. -/
theorem expectedTier_handlers_clean (p : PRIORITIES) (idx : Nat)
    (specs : List RegSpec) (htimes : ∀ sp ∈ specs, sp.times ≠ some 0) :
    ∀ h ∈ expectedTier none p idx specs,
      h.identifier = none ∧ h.times ≠ some 0 := by
  intro h hm
  obtain ⟨sp, hsp, k, hk⟩ := mem_expectedTier none p idx specs h hm
  subst hk
  exact ⟨mkSignalHandler_identifier_none _ _ _ _ _,
    by simpa [mkSignalHandler] using htimes sp hsp⟩

/-- C1: for every trigger of a signal built by a sequence of registrations
(fresh signal, live budgets), all registered handlers are executed
(synchronous) or submitted (asynchronous), and the dispatch events follow
tier order FIRST before NONE before LAST with registration order within each
tier — the trace equals `registrationTrace`, the spec's order. -/
theorem C1_trigger_order (name : String) (sw lg : Bool) (specs : List RegSpec)
    (s' : Signal) (w : World) (kwargs : List (String × Nat)) (comp : List Nat)
    (hreg : registerAll (Signal.fresh name none sw lg) 100 specs = .ok s')
    (htimes : ∀ sp ∈ specs, sp.times ≠ some 0) :
    (Signal.call w s' kwargs (some true) comp).trace = registrationTrace 100 specs := by
  have hs' := registerAll_async_none none specs (Signal.fresh name none sw lg) 100 rfl rfl
  rw [hreg] at hs'
  injection hs' with hs'
  subst hs'
  set big : Signal := { Signal.fresh name none sw lg with
    handlersF := (Signal.fresh name none sw lg).handlersF ++
      expectedTier none .FIRST 100 specs,
    handlersN := (Signal.fresh name none sw lg).handlersN ++
      expectedTier none .NONE 100 specs,
    handlersL := (Signal.fresh name none sw lg).handlersL ++
      expectedTier none .LAST 100 specs } with hbig
  have hiter : big.iter_handlers =
      expectedTier none .FIRST 100 specs ++ expectedTier none .NONE 100 specs ++
        expectedTier none .LAST 100 specs := by
    simp [hbig, Signal.iter_handlers, Signal.fresh]
  have hclean : ∀ h ∈ big.iter_handlers, h.identifier = none ∧ h.times ≠ some 0 := by
    intro h hm
    rw [hiter] at hm
    rcases List.mem_append.mp hm with hm' | hm'
    · rcases List.mem_append.mp hm' with hm'' | hm''
      · exact expectedTier_handlers_clean _ _ _ htimes h hm''
      · exact expectedTier_handlers_clean _ _ _ htimes h hm''
    · exact expectedTier_handlers_clean _ _ _ htimes h hm'
  have hid : big.identifier = none := by simp [hbig, Signal.fresh]
  rw [Signal.call_eq_body _ _ _ _ _ hid, callBody_trace]
  rw [sweep_eq_self big (fun h hm => (hclean h hm).2)]
  have hcl : ∀ h ∈ big.iter_handlers, h.identifier = none ∧ h.times ≠ some 0 ∧
      (h.async = false → (h.func.raises && !((some true).getD big.swallow_exceptions)) = false) := by
    intro h hm
    exact ⟨(hclean h hm).1, (hclean h hm).2, by simp⟩
  rw [dispatchList_clean w _ kwargs big.iter_handlers hcl]
  simp only [hiter, List.map_append, map_event_expectedTier, registrationTrace]

/-- A concrete registration sequence: one handler per tier, registered out of
tier order, the NONE one asynchronous. -/
def c1Specs : List RegSpec :=
  [⟨fB, none, .LAST, none⟩, ⟨fA, none, .FIRST, none⟩, ⟨fC, some true, .NONE, none⟩]

/-- The signal obtained by registering `c1Specs` on a fresh signal. -/
def c1Sig : Signal :=
  match registerAll (Signal.fresh "on_order" none false true) 100 c1Specs with
  | .ok s => s
  | .error _ => Signal.fresh "on_order" none false true

/-- Witness for C1: the three handlers fire as FIRST (registered second),
then the asynchronous NONE one (registered third), then LAST (registered
first). -/
theorem C1_trigger_order_witness :
    (Signal.call trivWorld c1Sig [] (some true) []).trace =
      [Event.sync 101, Event.submitted 102, Event.sync 100] :=
  C1_trigger_order "on_order" false true c1Specs c1Sig trivWorld [] []
    rfl (by decide)

/-! ## C3 — the identifier check -/

/-- Every outcome recorded by the dispatch loop, and any exception escaping
it, comes from some handler's call. -/
theorem dispatchList_from_call (w : World) (sw : Bool) (kw : List (String × Nat)) :
    ∀ l : List SignalHandler,
    (∀ o ∈ (dispatchList w sw kw l).2.2.1, ∃ h, h ∈ l ∧ o.2.2 = (h.call w sw kw).2) ∧
    (∀ e, (dispatchList w sw kw l).2.2.2 = some e →
      ∃ h, h ∈ l ∧ futureExc (h.call w sw kw).2 = some e)
  | [] => by constructor <;> simp [dispatchList]
  | h :: rest => by
      obtain ⟨ih1, ih2⟩ := dispatchList_from_call w sw kw rest
      by_cases ha : h.async
      · constructor
        · intro o ho
          simp only [dispatchList, ha] at ho
          simp only [if_true, List.mem_cons] at ho
          rcases ho with rfl | ho
          · exact ⟨h, by simp, rfl⟩
          · obtain ⟨g, hg, hgo⟩ := ih1 o ho
            exact ⟨g, by simp [hg], hgo⟩
        · intro e he
          simp only [dispatchList, ha, if_true] at he
          obtain ⟨g, hg, hge⟩ := ih2 e he
          exact ⟨g, by simp [hg], hge⟩
      · have ha' : h.async = false := by simpa using ha
        rcases hc : (h.call w sw kw).2 with _ | _ | e' | e'
        · constructor
          · intro o ho
            simp only [dispatchList, ha', hc] at ho
            simp only [Bool.false_eq_true, if_false, List.mem_cons] at ho
            rcases ho with rfl | ho
            · exact ⟨h, by simp, by rw [hc]⟩
            · obtain ⟨g, hg, hgo⟩ := ih1 o ho
              exact ⟨g, by simp [hg], hgo⟩
          · intro e he
            simp only [dispatchList, ha', hc] at he
            simp only [Bool.false_eq_true, if_false] at he
            obtain ⟨g, hg, hge⟩ := ih2 e he
            exact ⟨g, by simp [hg], hge⟩
        · constructor
          · intro o ho
            simp only [dispatchList, ha', hc] at ho
            simp only [Bool.false_eq_true, if_false, List.mem_cons] at ho
            rcases ho with rfl | ho
            · exact ⟨h, by simp, by rw [hc]⟩
            · obtain ⟨g, hg, hgo⟩ := ih1 o ho
              exact ⟨g, by simp [hg], hgo⟩
          · intro e he
            simp only [dispatchList, ha', hc] at he
            simp only [Bool.false_eq_true, if_false] at he
            obtain ⟨g, hg, hge⟩ := ih2 e he
            exact ⟨g, by simp [hg], hge⟩
        · constructor
          · intro o ho
            simp only [dispatchList, ha', hc] at ho
            simp only [Bool.false_eq_true, if_false, List.mem_cons, List.mem_singleton] at ho
            rcases ho with rfl | ho
            · exact ⟨h, by simp, by rw [hc]⟩
            · simp at ho
          · intro e he
            simp only [dispatchList, ha', hc] at he
            simp only [Bool.false_eq_true, if_false, Option.some.injEq] at he
            exact ⟨h, by simp, by rw [hc, futureExc, he]⟩
        · constructor
          · intro o ho
            simp only [dispatchList, ha', hc] at ho
            simp only [Bool.false_eq_true, if_false, List.mem_cons, List.mem_singleton] at ho
            rcases ho with rfl | ho
            · exact ⟨h, by simp, by rw [hc]⟩
            · simp at ho
          · intro e he
            simp only [dispatchList, ha', hc] at he
            simp only [Bool.false_eq_true, if_false, Option.some.injEq] at he
            exact ⟨h, by simp, by rw [hc, futureExc, he]⟩

/-- A failure surfaced from the completion-ordered futures belongs to one of
the submitted futures. -/
theorem mem_completionFailures (futs : List (Nat × Bool × HOutcome))
    (comp : List Nat) (e : Exc) (he : e ∈ completionFailures futs comp) :
    ∃ o ∈ futs, futureExc o.2.2 = some e := by
  unfold completionFailures at he
  obtain ⟨o, ho, he'⟩ := List.mem_filterMap.mp he
  obtain ⟨i, _, hgo⟩ := List.mem_filterMap.mp ho
  exact ⟨o, List.get?_mem hgo, he'⟩

/-- The future-resolution step only surfaces the synchronous exception or a
completion-order failure. -/
theorem resolveFutures_not_missing (futs : List (Nat × Bool × HOutcome))
    (comp : List Nat) (syncErr : Option Exc)
    (hs : ∀ e, syncErr = some e → isMissingExc e = false)
    (hf : ∀ e ∈ completionFailures futs comp, isMissingExc e = false) :
    isMissingIdentifier (resolveFutures futs comp syncErr).1 = false := by
  unfold resolveFutures
  cases syncErr with
  | some e => simpa [isMissingIdentifier] using hs e rfl
  | none =>
      cases hcf : completionFailures futs comp with
      | nil => simp [isMissingIdentifier]
      | cons e es => simpa [isMissingIdentifier] using hf e (by simp [hcf])

/-- The trigger body never raises `MissingIdentifier`: every surfaced
exception originates in a handler call. -/
theorem callBody_raised_not_missing (w : World) (s : Signal)
    (kw : List (String × Nat)) (sOv : Option Bool) (comp : List Nat) :
    isMissingIdentifier (Signal.callBody w s kw sOv comp).raised = false := by
  rw [callBody_raised]
  apply resolveFutures_not_missing
  · intro e he
    obtain ⟨h, _, hfe⟩ :=
      (dispatchList_from_call w (sOv.getD s.swallow_exceptions) kw
        s.sweep.iter_handlers).2 e he
    have hnm := SignalHandler.call_exc_not_missing w h (sOv.getD s.swallow_exceptions) kw
    rw [hfe] at hnm
    simpa [isMissingIdentifier] using hnm
  · intro e he
    obtain ⟨o, ho, hoe⟩ := mem_completionFailures _ comp e he
    have ho' := List.mem_of_mem_filter ho
    obtain ⟨h, _, h22⟩ :=
      (dispatchList_from_call w (sOv.getD s.swallow_exceptions) kw
        s.sweep.iter_handlers).1 o ho'
    have hnm := SignalHandler.call_exc_not_missing w h (sOv.getD s.swallow_exceptions) kw
    rw [← h22, hoe] at hnm
    simpa [isMissingIdentifier] using hnm

/-- C3: on a signal whose identifier keyword is set (truthy), a trigger
without that keyword raises `MissingIdentifier` naming the signal and the
key, invoking no handler and leaving the handler set untouched; a trigger
with the keyword present never raises `MissingIdentifier`. -/
theorem C3_missing_identifier (w : World) (s : Signal)
    (kwargs : List (String × Nat)) (sOv : Option Bool) (comp : List Nat)
    (ident : String) (hid : s.identifier = some ident) (hne : ident ≠ "") :
    (pyLookup kwargs ident = none →
      Signal.call w s kwargs sOv comp =
        { sig := s, trace := [], outs := [],
          raised := some (.missingIdentifier s.name ident), logged := [] }) ∧
    (∀ v, pyLookup kwargs ident = some v →
      isMissingIdentifier (Signal.call w s kwargs sOv comp).raised = false) := by
  constructor
  · intro hnone
    unfold Signal.call
    simp [hid, hne, hnone]
  · intro v hv
    unfold Signal.call
    simp only [hid, hne, if_false, hv, Option.isSome_some, if_true]
    exact callBody_raised_not_missing w s kwargs sOv comp

/-- A signal requiring the identifier keyword `target`, with one
method-bound handler. -/
def sI : Signal :=
  { Signal.fresh "on_ident" none false true with
    identifier := some "target"
    handlersN := [mkSignalHandler fM false .NONE none (some "target") 104] }

/-- Witness for C3: triggering `sI` without `target` raises
`MissingIdentifier` and runs nothing; with `target` present no
`MissingIdentifier` is raised. -/
theorem C3_missing_identifier_witness :
    Signal.call trivWorld sI [] none [] =
      { sig := sI, trace := [], outs := [],
        raised := some (.missingIdentifier sI.name "target"), logged := [] } ∧
    isMissingIdentifier (Signal.call trivWorld sI [("target", 5)] none []).raised
      = false :=
  ⟨(C3_missing_identifier trivWorld sI [] none [] "target" rfl (by decide)).1 rfl,
   (C3_missing_identifier trivWorld sI [("target", 5)] none [] "target" rfl
      (by decide)).2 5 rfl⟩

/-! ## C4 — exception swallowing -/

/-- C4: with swallowing on, a raising synchronous handler does not stop the
later handlers and the trigger returns normally; with swallowing off, the
first failure propagates unchanged and the later handlers never run. -/
theorem C4_swallow (w : World) (s : Signal) (kwargs : List (String × Nat))
    (pre post : List SignalHandler) (hBad : SignalHandler)
    (hident : s.identifier = none)
    (hiter : s.iter_handlers = pre ++ hBad :: post)
    (hall : ∀ h ∈ s.iter_handlers,
      h.async = false ∧ h.identifier = none ∧ h.times ≠ some 0)
    (hpre : ∀ h ∈ pre, h.func.raises = false)
    (hbadr : hBad.func.raises = true) :
    ((Signal.call w s kwargs (some true) []).raised = none ∧
     (Signal.call w s kwargs (some true) []).trace
        = (pre ++ hBad :: post).map (fun h => Event.sync h.idx)) ∧
    ((Signal.call w s kwargs (some false) []).raised
        = some (.handlerExc hBad.func.excTagOf) ∧
     (Signal.call w s kwargs (some false) []).trace
        = pre.map (fun h => Event.sync h.idx) ++ [Event.sync hBad.idx]) := by
  have hsweep : s.sweep = s := sweep_eq_self s (fun h hm => (hall h hm).2.2)
  constructor
  · -- swallow = true
    rw [Signal.call_eq_body _ _ _ _ _ hident, callBody_raised, callBody_trace, hsweep]
    have hcl : ∀ h ∈ s.iter_handlers, h.identifier = none ∧ h.times ≠ some 0 ∧
        (h.async = false → (h.func.raises && !((some true).getD s.swallow_exceptions)) = false) := by
      intro h hm
      exact ⟨(hall h hm).2.1, (hall h hm).2.2, by simp⟩
    rw [dispatchList_clean w _ kwargs s.iter_handlers hcl]
    constructor
    · have hfilter :
          (s.iter_handlers.map (fun h => (h.idx, h.async,
            if (h.func.raises && !((some true).getD s.swallow_exceptions)) = true
            then HOutcome.raisedCall (.handlerExc h.func.excTagOf)
            else HOutcome.returned))).filter (fun o => o.2.1) = [] := by
        rw [List.filter_eq_nil]
        intro o ho
        obtain ⟨h, hm, rfl⟩ := List.mem_map.mp ho
        simp [(hall h hm).1]
      rw [hfilter]
      simp [resolveFutures, completionFailures]
    · rw [hiter]
      apply List.map_congr_left
      intro h hm
      rw [← hiter] at hm
      simp [(hall h hm).1]
  · -- swallow = false
    have hbadmem : hBad ∈ s.iter_handlers := by
      rw [hiter]; simp
    have hpre' : ∀ h ∈ pre, h.identifier = none ∧ h.times ≠ some 0 ∧
        h.async = false ∧ h.func.raises = false := by
      intro h hm
      have hm' : h ∈ s.iter_handlers := by rw [hiter]; simp [hm]
      exact ⟨(hall h hm').2.1, (hall h hm').2.2, (hall h hm').1, hpre h hm⟩
    have habort := dispatchList_abort w kwargs hBad (hall hBad hbadmem).2.1
      (hall hBad hbadmem).2.2 (hall hBad hbadmem).1 hbadr pre post hpre'
    rw [Signal.call_eq_body _ _ _ _ _ hident, callBody_raised, callBody_trace, hsweep,
      hiter]
    simp only [Option.getD_some]
    rw [habort]
    constructor
    · simp [resolveFutures]
    · rfl

/-- A non-raising handler fixture in the NONE tier. -/
def hA : SignalHandler := mkSignalHandler fA false .NONE none none 101

/-- A second non-raising handler fixture in the NONE tier. -/
def hB : SignalHandler := mkSignalHandler fB false .NONE none none 102

/-- A handler fixture whose callable raises the exception tagged 7. -/
def hCbad : SignalHandler := mkSignalHandler fC false .NONE none none 130

/-- A signal with a raising handler between two healthy ones. -/
def sSw : Signal :=
  { Signal.fresh "on_err" none false true with handlersN := [hA, hCbad, hB] }

/-- Witness for C4: on `sSw`, swallowing runs all three handlers and returns;
not swallowing stops after the raising handler and surfaces its exception. -/
theorem C4_swallow_witness :
    ((Signal.call trivWorld sSw [] (some true) []).raised = none ∧
     (Signal.call trivWorld sSw [] (some true) []).trace
        = [Event.sync 101, Event.sync 130, Event.sync 102]) ∧
    ((Signal.call trivWorld sSw [] (some false) []).raised
        = some (.handlerExc 7) ∧
     (Signal.call trivWorld sSw [] (some false) []).trace
        = [Event.sync 101, Event.sync 130]) := by
  have h := C4_swallow trivWorld sSw [] [hA] [hB] hCbad rfl rfl
    (by decide) (by decide) (by decide)
  exact ⟨⟨h.1.1, by rw [h.1.2]; rfl⟩, ⟨by rw [h.2.1]; rfl, by rw [h.2.2]; rfl⟩⟩

/-! ## C5 — async configuration conflicts -/

/-- C5 (amended): an explicit async flag conflicts — raising the
ConfigurationConflict assertion — exactly against the signal's own async
policy fixed at creation; registration never updates that policy, so a
matching or policy-free registration succeeds. -/
theorem C5_conflict (s : Signal) (f : PyFunc) (a : Bool) (p : PRIORITIES)
    (t : Option Int) (idx : Nat) :
    (∀ b, s.async = some b → b ≠ a →
        s.register f (some a) p t idx = .error "ConfigurationConflict") ∧
    (s.async = some a → (s.register f (some a) p t idx).isOk = true) ∧
    (s.async = none → (s.register f (some a) p t idx).isOk = true) ∧
    (∀ s', s.register f (some a) p t idx = .ok s' → s'.async = s.async) := by
  refine ⟨?_, ?_, ?_, ?_⟩
  · intro b hb hne
    unfold Signal.register
    simp [hb, hne]
  · intro hb
    unfold Signal.register
    simp only [hb]
    simp only [if_pos]
    rfl
  · intro hpol
    unfold Signal.register
    simp only [hpol]
    rfl
  · intro s' hok
    unfold Signal.register at hok
    rcases hpol : s.async with _ | b
    · rw [hpol] at hok
      simp only [Except.ok.injEq] at hok
      rw [← hok]
      exact (setTier_fields s p _).1.trans hpol
    · rw [hpol] at hok
      by_cases hba : b = a
      · simp only [hba, if_true, Except.ok.injEq] at hok
        rw [← hok]
        exact (setTier_fields s p _).1.trans hpol
      · simp [hba] at hok

/-- The first registration on a policy-free signal, with an explicit
asynchronous flag. -/
def c5Step1 : Except String Signal :=
  (Signal.fresh "on_conflict" none false true).register fA (some true) .NONE none 1

/-- The second registration, with the opposite explicit flag. -/
def c5Step2 : Except String Signal :=
  match c5Step1 with
  | .ok s => s.register fB (some false) .NONE none 2
  | .error e => .error e

/-- Counterexample to C1's reading of C5 as stated: two handlers with
conflicting forced async flags both register successfully on a signal created
without an async policy — no ConfigurationConflict is raised on the second
registration, because `register` checks only the signal's own policy and
never records the first handler's flag. -/
theorem C5_conflict_counterexample : c5Step1.isOk = true ∧ c5Step2.isOk = true := by
  constructor <;> rfl

/-- A signal created with a forced asynchronous policy. -/
def c5AsyncSig : Signal := Signal.fresh "on_forced" (some true) false true

/-- Witness for the amended C5: a contradicting explicit flag on a
policy-carrying signal errors; a matching one succeeds. -/
theorem C5_conflict_witness :
    c5AsyncSig.register fA (some false) .NONE none 5 = .error "ConfigurationConflict" ∧
    (c5AsyncSig.register fB (some true) .NONE none 6).isOk = true :=
  ⟨(C5_conflict c5AsyncSig fA false .NONE none 5).1 true rfl (by decide),
   (C5_conflict c5AsyncSig fB true .NONE none 6).2.1 rfl⟩

/-! ## C7 — unregister semantics -/

/-- C7 (amended): `unregister` is a no-op when nothing matches; when exactly
one wrapper matches, that first (only) match is removed and every other tier
with no match is untouched; matching compares the passed callable with each
wrapper's unwrapped original, so it sees through partial-application and
decoration wrapping down to the innermost original function. (With several
matching wrappers the source removes more than the first — see the
counterexample.) -/
theorem C7_unregister (s : Signal) (f : PyFunc) :
    ((∀ h ∈ s.iter_handlers, handlerMatches f h = false) → s.unregister f = s) ∧
    (∀ (prio : PRIORITIES) (pre : List SignalHandler) (hM : SignalHandler)
        (post : List SignalHandler),
      s.getTier prio = pre ++ hM :: post →
      handlerMatches f hM = true →
      (∀ h ∈ pre, handlerMatches f h = false) →
      (∀ h ∈ post, handlerMatches f h = false) →
      (s.unregister f).getTier prio = pre ++ post) ∧
    (∀ q : PRIORITIES, (∀ h ∈ s.getTier q, handlerMatches f h = false) →
      (s.unregister f).getTier q = s.getTier q) ∧
    (∀ (g : PyFunc) (a : Bool) (p : PRIORITIES) (t : Option Int)
        (idn : Option String) (idx : Nat), get_original_func g = f →
      handlerMatches f (mkSignalHandler g a p t idn idx) = true) := by
  refine ⟨?_, ?_, ?_, ?_⟩
  · intro hno
    unfold Signal.unregister
    have hF := unregList_eq_of_no_match (handlerMatches f) s.handlersF
      (fun a ha => hno a (mem_iter_of_tier .FIRST ha))
    have hN := unregList_eq_of_no_match (handlerMatches f) s.handlersN
      (fun a ha => hno a (mem_iter_of_tier .NONE ha))
    have hL := unregList_eq_of_no_match (handlerMatches f) s.handlersL
      (fun a ha => hno a (mem_iter_of_tier .LAST ha))
    simp [hF, hN, hL]
  · intro prio pre hM post hdec hm hpre hpost
    rw [unregister_getTier, hdec]
    exact unregList_unique (handlerMatches f) pre hM post hm hpre hpost
  · intro q hq
    rw [unregister_getTier]
    exact unregList_eq_of_no_match (handlerMatches f) _ hq
  · intro g a p t idn idx hg
    simp [handlerMatches, mkSignalHandler, funcMatches, hg]

/-- A second wrapper of the same callable `fA`, registered later. -/
def hA2 : SignalHandler := mkSignalHandler fA false .NONE none none 103

/-- A signal whose NONE tier holds two wrappers of `fA` around one of `fB`. -/
def s7 : Signal :=
  { Signal.fresh "on_unreg" none false true with handlersN := [hA, hB, hA2] }

/-- Counterexample to C7 as stated: with two wrappers matching `fA`,
`unregister(fA)` removes not only the first — the later wrapper `hA2` is
removed as well (and the unexamined `hB` survives), so the handler set ends as
`[hB]`, not `[hB, hA2]`. -/
theorem C7_unregister_counterexample :
    handlerMatches fA hA = true ∧ handlerMatches fA hA2 = true ∧ hA ≠ hA2 ∧
    handlerMatches fA hB = false ∧
    (s7.unregister fA).handlersN = [hB] ∧
    (s7.unregister fA).handlersN ≠ [hB, hA2] := by
  decide

/-- A signal with a unique `fA` wrapper before an `fB` wrapper. -/
def s7u : Signal :=
  { Signal.fresh "on_unreg1" none false true with handlersN := [hA, hB] }

/-- Witness for the amended C7: unregistering an unknown callable is a no-op;
unregistering `fA` with a unique match removes exactly that wrapper. -/
theorem C7_unregister_witness :
    s7u.unregister fC = s7u ∧ (s7u.unregister fA).getTier .NONE = [hB] :=
  ⟨(C7_unregister s7u fC).1 (by decide),
   by
    have h := (C7_unregister s7u fA).2.1 .NONE [] hA [hB] rfl (by decide)
      (by decide) (by decide)
    simpa using h⟩

/-! ## C8 — the scoped variant's enter -/

/-- The head of a list, when present, is a member. -/
theorem head?_mem {α : Type} {l : List α} {a : α} (h : l.head? = some a) :
    a ∈ l := by
  cases l with
  | nil => simp at h
  | cons b t =>
      simp only [List.head?_cons, Option.some.injEq] at h
      simp [h]

/-- Every outcome recorded by the scoped variant's asynchronous group phase
comes from some handler's call. -/
theorem cmAsyncPhase_from_call (w : World) (sw : Bool) (kw : List (String × Nat)) :
    ∀ l : List SignalHandler,
    ∀ o ∈ (cmAsyncPhase w sw kw l).2.2, ∃ h, h ∈ l ∧ o.2.2 = (h.call w sw kw).2
  | [] => by intro o ho; simp [cmAsyncPhase] at ho
  | h :: rest => by
      intro o ho
      have ih := cmAsyncPhase_from_call w sw kw rest
      by_cases ha : h.async
      · simp only [cmAsyncPhase, ha] at ho
        simp only [if_true, List.mem_cons] at ho
        rcases ho with rfl | ho
        · exact ⟨h, by simp, rfl⟩
        · obtain ⟨g, hg, hgo⟩ := ih o ho
          exact ⟨g, by simp [hg], hgo⟩
      · have ha' : h.async = false := by simpa using ha
        simp only [cmAsyncPhase, ha'] at ho
        simp only [Bool.false_eq_true, if_false] at ho
        obtain ⟨g, hg, hgo⟩ := ih o ho
        exact ⟨g, by simp [hg], hgo⟩

/-- Any exception escaping the scoped variant's synchronous loop comes from
some handler's call. -/
theorem cmSyncPhase_err_from_call (w : World) (sw : Bool) (kw : List (String × Nat)) :
    ∀ l : List SignalHandler,
    ∀ e, (cmSyncPhase w sw kw l).2.2.2 = some e →
      ∃ h, h ∈ l ∧ futureExc (h.call w sw kw).2 = some e
  | [] => by intro e he; simp [cmSyncPhase] at he
  | h :: rest => by
      intro e he
      have ih := cmSyncPhase_err_from_call w sw kw rest
      by_cases ha : h.async
      · simp only [cmSyncPhase, ha] at he
        simp only [if_true] at he
        obtain ⟨g, hg, hge⟩ := ih e he
        exact ⟨g, by simp [hg], hge⟩
      · have ha' : h.async = false := by simpa using ha
        rcases hc : (h.call w sw kw).2 with _ | _ | e' | e'
        · simp only [cmSyncPhase, ha', hc] at he
          simp only [Bool.false_eq_true, if_false] at he
          obtain ⟨g, hg, hge⟩ := ih e he
          exact ⟨g, by simp [hg], hge⟩
        · simp only [cmSyncPhase, ha', hc] at he
          simp only [Bool.false_eq_true, if_false] at he
          obtain ⟨g, hg, hge⟩ := ih e he
          exact ⟨g, by simp [hg], hge⟩
        · simp only [cmSyncPhase, ha', hc] at he
          simp only [Bool.false_eq_true, if_false, Option.some.injEq] at he
          exact ⟨h, by simp, by rw [hc, futureExc, he]⟩
        · simp only [cmSyncPhase, ha', hc] at he
          simp only [Bool.false_eq_true, if_false, Option.some.injEq] at he
          exact ⟨h, by simp, by rw [hc, futureExc, he]⟩

/-- C8 (amended): the scoped variant's enter performs the logging, expiry
sweep, and dispatch steps, but omits the plain trigger's identifier check
entirely: entering never raises `MissingIdentifier`, whatever the signal's
identifier and the supplied keywords — any exception it surfaces originates
in a handler call (for an identifier-filtered handler with the keyword absent
that is a `KeyError`, not a `MissingIdentifier`). -/
theorem C8_cm_enter_no_missing (w : World) (s : Signal)
    (kwargs : List (String × Nat)) (sOv : Option Bool) :
    isMissingIdentifier (cmEnter w s kwargs sOv).raised = false := by
  unfold cmEnter
  dsimp only
  rcases hh : (((cmAsyncPhase w (sOv.getD s.swallow_exceptions) kwargs
      (cmSweep s).iter_handlers).2.2).filterMap (fun o => futureExc o.2.2)).head?
    with _ | e
  · rw [hh]
    dsimp only
    rcases he : (cmSyncPhase w (sOv.getD s.swallow_exceptions) kwargs
        (cmAsyncPhase w (sOv.getD s.swallow_exceptions) kwargs
          (cmSweep s).iter_handlers).1).2.2.2 with _ | e
    · simp [isMissingIdentifier, he]
    · obtain ⟨h, _, hfe⟩ := cmSyncPhase_err_from_call w _ kwargs _ e he
      have hnm := SignalHandler.call_exc_not_missing w h (sOv.getD s.swallow_exceptions) kwargs
      rw [hfe] at hnm
      simpa [isMissingIdentifier, he] using hnm
  · rw [hh]
    dsimp only
    have hmem := head?_mem hh
    obtain ⟨o, ho, hoe⟩ := List.mem_filterMap.mp hmem
    obtain ⟨h, _, h22⟩ := cmAsyncPhase_from_call w _ kwargs _ o ho
    have hnm := SignalHandler.call_exc_not_missing w h (sOv.getD s.swallow_exceptions) kwargs
    rw [← h22, hoe] at hnm
    simpa [isMissingIdentifier] using hnm

/-- A method-bound handler wrapper filtered on `target`. -/
def hM4 : SignalHandler := mkSignalHandler fM false .NONE none (some "target") 120

/-- A signal requiring the `target` keyword, with one filtered handler. -/
def sM : Signal :=
  { Signal.fresh "on_m" none false true with
    identifier := some "target"
    handlersN := [hM4] }

/-- Counterexample to C8 as stated: on the same signal and kwargs, the plain
trigger raises `MissingIdentifier`, while the scoped variant's enter performs
no identifier check — dispatch proceeds and the filtered handler dies with a
`KeyError` instead. -/
theorem C8_cm_enter_counterexample :
    (Signal.call trivWorld sM [] none []).raised
      = some (.missingIdentifier "on_m" "target") ∧
    (cmEnter trivWorld sM [] none).raised = some (.keyError "target") := by
  decide

/-! ## C10 — identifier filter only for bound methods -/

/-- C10 (amended): the identifier filter is discarded at construction exactly
when the *unwrapped original* callable is not a bound method; such a handler
has no filter and, while its budget is live, always calls its callable on
trigger — whatever the identifier keyword carries. -/
theorem C10_identifier_only_methods (func : PyFunc) (a : Bool) (p : PRIORITIES)
    (t : Option Int) (idn : Option String) (idx : Nat) (w : World) (sw : Bool)
    (kw : List (String × Nat))
    (hm : (get_original_func func).pyIsMethod = false)
    (ht : t ≠ some 0) :
    (mkSignalHandler func a p t idn idx).identifier = none ∧
    invokedOut ((mkSignalHandler func a p t idn idx).call w sw kw).2 = true := by
  have hid : (mkSignalHandler func a p t idn idx).identifier = none := by
    simp [mkSignalHandler, hm]
  have ht' : (mkSignalHandler func a p t idn idx).times ≠ some 0 := by
    simpa [mkSignalHandler] using ht
  refine ⟨hid, ?_⟩
  rw [SignalHandler.call_clean w _ sw kw hid ht']
  dsimp only
  split <;> rfl

/-- A `functools.partial` wrapping the bound method `fM`. -/
def fPM : PyFunc := .part fM

/-- A world where the handler object 77 carries a `target` attribute valued 6. -/
def w10 : World :=
  { attrs := fun o k => if o = 77 ∧ k = "target" then some 6 else none
    cls := fun _ => 0 }

/-- Counterexample to C10 as stated: a handler registered as a partial — not
itself a bound method — keeps its identifier filter, because the construction
tests the unwrapped original callable; on a trigger whose `target` differs
from the bound object's, the handler is skipped, so it is not "always
invoked". -/
theorem C10_identifier_counterexample :
    fPM.pyIsMethod = false ∧
    (mkSignalHandler fPM false .NONE none (some "target") 200).identifier
      = some "target" ∧
    ((mkSignalHandler fPM false .NONE none (some "target") 200).call w10 false
      [("target", 5)]).2 = .skipped := by
  decide

/-- Witness for the amended C10: a plain function keeps no filter and its
callable runs even when the identifier keyword is absent. -/
theorem C10_identifier_witness :
    (mkSignalHandler fA false .NONE none (some "target") 201).identifier = none ∧
    invokedOut ((mkSignalHandler fA false .NONE none (some "target") 201).call
      trivWorld false []).2 = true :=
  C10_identifier_only_methods fA false .NONE none (some "target") 201 trivWorld
    false [] (by decide) (by decide)

/-! ## C6 — asynchronous error aggregation -/

/-- Reading a list back by its positions reproduces the list. -/
theorem filterMap_get?_range {α : Type} (l : List α) :
    (List.range l.length).filterMap (fun i => l.get? i) = l := by
  induction l with
  | nil => simp
  | cons a t ih =>
      rw [List.length_cons, List.range_succ_eq_map, List.filterMap_cons]
      simp only [List.get?_cons_zero]
      rw [List.filterMap_map]
      have hcomp : ((fun i => (a :: t).get? i) ∘ Nat.succ) = fun i => t.get? i := by
        funext i
        simp
      rw [hcomp, ih]

/-- With no synchronous exception, the wait on the futures surfaces the first
completion-order failure and logs the remaining ones. -/
theorem resolveFutures_none (futs : List (Nat × Bool × HOutcome)) (comp : List Nat) :
    (resolveFutures futs comp none).1 = (completionFailures futs comp).head? ∧
    (resolveFutures futs comp none).2 = (completionFailures futs comp).tail := by
  unfold resolveFutures
  cases hcf : completionFailures futs comp <;> simp [hcf]

/-- C6: when a trigger's synchronous handlers all succeed and the completion
order enumerates the submitted futures, the trigger waits on all of them;
it raises the first failure in completion order (none when there is no
failure), logs exactly the other failures, and the raised-plus-logged
failures are a permutation of all the asynchronous failures — none is
dropped. -/
theorem C6_async_errors (w : World) (s : Signal) (kwargs : List (String × Nat))
    (sOv : Option Bool) (comp : List Nat)
    (hident : s.identifier = none)
    (hclean : ∀ h ∈ s.iter_handlers, h.identifier = none ∧ h.times ≠ some 0)
    (hsync : ∀ h ∈ s.iter_handlers, h.async = false → h.func.raises = false)
    (hperm : comp.Perm (List.range ((Signal.call w s kwargs sOv comp).outs.filter
      (fun o => o.2.1)).length)) :
    (Signal.call w s kwargs sOv comp).raised
      = (completionFailures ((Signal.call w s kwargs sOv comp).outs.filter
          (fun o => o.2.1)) comp).head? ∧
    (Signal.call w s kwargs sOv comp).logged
      = (completionFailures ((Signal.call w s kwargs sOv comp).outs.filter
          (fun o => o.2.1)) comp).tail ∧
    (completionFailures ((Signal.call w s kwargs sOv comp).outs.filter
        (fun o => o.2.1)) comp).Perm
      (((Signal.call w s kwargs sOv comp).outs.filter (fun o => o.2.1)).filterMap
        (fun o => futureExc o.2.2)) := by
  have hsweep : s.sweep = s := sweep_eq_self s (fun h hm => (hclean h hm).2)
  have hcl : ∀ h ∈ s.iter_handlers, h.identifier = none ∧ h.times ≠ some 0 ∧
      (h.async = false → (h.func.raises && !(sOv.getD s.swallow_exceptions)) = false) := by
    intro h hm
    exact ⟨(hclean h hm).1, (hclean h hm).2, fun ha => by simp [hsync h hm ha]⟩
  have hbody := Signal.call_eq_body w s kwargs sOv comp hident
  have hd := dispatchList_clean w (sOv.getD s.swallow_exceptions) kwargs
    s.iter_handlers hcl
  have houts : (Signal.call w s kwargs sOv comp).outs
      = (dispatchList w (sOv.getD s.swallow_exceptions) kwargs
          s.sweep.iter_handlers).2.2.1 := by
    rw [hbody, callBody_outs]
  have hraised : (Signal.call w s kwargs sOv comp).raised
      = (resolveFutures (((dispatchList w (sOv.getD s.swallow_exceptions) kwargs
          s.sweep.iter_handlers).2.2.1).filter (fun o => o.2.1)) comp
          (dispatchList w (sOv.getD s.swallow_exceptions) kwargs
            s.sweep.iter_handlers).2.2.2).1 := by
    rw [hbody, callBody_raised]
  have hlogged : (Signal.call w s kwargs sOv comp).logged
      = (resolveFutures (((dispatchList w (sOv.getD s.swallow_exceptions) kwargs
          s.sweep.iter_handlers).2.2.1).filter (fun o => o.2.1)) comp
          (dispatchList w (sOv.getD s.swallow_exceptions) kwargs
            s.sweep.iter_handlers).2.2.2).2 := by
    rw [hbody, callBody_logged]
  rw [hsweep] at houts hraised hlogged
  have herr : (dispatchList w (sOv.getD s.swallow_exceptions) kwargs
      s.iter_handlers).2.2.2 = none := by
    rw [hd]
  rw [herr] at hraised hlogged
  refine ⟨?_, ?_, ?_⟩
  · rw [hraised, houts, (resolveFutures_none _ comp).1]
  · rw [hlogged, houts, (resolveFutures_none _ comp).2]
  · rw [houts]
    set futs := ((dispatchList w (sOv.getD s.swallow_exceptions) kwargs
      s.iter_handlers).2.2.1).filter (fun o => o.2.1) with hfuts
    have hperm' : comp.Perm (List.range futs.length) := by
      rw [hfuts]
      rw [houts] at hperm
      exact hperm
    have h1 : (comp.filterMap (fun i => futs.get? i)).Perm
        ((List.range futs.length).filterMap (fun i => futs.get? i)) :=
      hperm'.filterMap _
    rw [filterMap_get?_range] at h1
    exact h1.filterMap _

/-- A handler fixture submitting asynchronously and raising the exception
tagged 7. -/
def hX : SignalHandler := mkSignalHandler fC true .NONE none none 140

/-- A handler fixture submitting asynchronously and raising the exception
tagged 8. -/
def hY : SignalHandler := mkSignalHandler fD true .NONE none none 141

/-- A signal with two failing asynchronous handlers. -/
def sAsync2 : Signal :=
  { Signal.fresh "on_async" none false true with handlersN := [hX, hY] }

/-- Witness for C6: with completion order `[1, 0]`, the second-submitted
handler's exception (tag 8) completes first and is raised; the other failure
(tag 7) is logged, not dropped. -/
theorem C6_async_errors_witness :
    (Signal.call trivWorld sAsync2 [] none [1, 0]).raised
      = some (.handlerExc 8) ∧
    (Signal.call trivWorld sAsync2 [] none [1, 0]).logged = [.handlerExc 7] := by
  have h := C6_async_errors trivWorld sAsync2 [] none [1, 0] rfl (by decide)
    (by decide) (by decide)
  exact ⟨by rw [h.1]; rfl, by rw [h.2.1]; rfl⟩

/-! ## C9 — unregistration during an in-flight trigger -/

/-- A handler with no unregistration effect leaves the live list unchanged. -/
theorem dispatchSimStep_noeffect (l : List DynHandler) (d : DynHandler)
    (h : d.effect = none) : dispatchSimStep l d = l := by
  simp [dispatchSimStep, h]

/-- An element of an append taken below the left part's length lies in the
left part. -/
theorem get_append_lt {α : Type} :
    ∀ (l₁ l₂ : List α) (k : Nat) (hk : k < l₁.length)
      (h : k < (l₁ ++ l₂).length),
    (l₁ ++ l₂).get ⟨k, h⟩ = l₁.get ⟨k, hk⟩
  | [], _, k, hk, _ => by simp at hk
  | a :: t, l₂, 0, _, _ => rfl
  | a :: t, l₂, k + 1, hk, h =>
      get_append_lt t l₂ k (by simpa using hk) (by simpa using h)

/-- The element of an append at exactly the left part's length is the head of
the right part. -/
theorem get_append_length {α : Type} :
    ∀ (l₁ : List α) (a : α) (l₂ : List α)
      (h : l₁.length < (l₁ ++ a :: l₂).length),
    (l₁ ++ a :: l₂).get ⟨l₁.length, h⟩ = a
  | [], _, _, _ => rfl
  | b :: t, a, l₂, h => get_append_length t a l₂ (by simpa using h)

/-- An element of an append taken at or beyond the left part's length lies in
the right part. -/
theorem get_append_mem_right {α : Type} :
    ∀ (l₁ l₂ : List α) (k : Nat) (h : k < (l₁ ++ l₂).length)
      (hk : l₁.length ≤ k),
    (l₁ ++ l₂).get ⟨k, h⟩ ∈ l₂
  | [], l₂, k, h, _ => by
      have hm := List.get_mem l₂ k (by simpa using h)
      simpa using hm
  | b :: t, l₂, 0, _, hk => by simp at hk
  | b :: t, l₂, k + 1, h, hk =>
      get_append_mem_right t l₂ k (by simpa using h) (by simpa using hk)

/-- Taking an append at the left part's length yields the left part. -/
theorem take_append_self {α : Type} :
    ∀ (l₁ l₂ : List α), (l₁ ++ l₂).take l₁.length = l₁
  | [], _ => rfl
  | a :: t, l₂ => by simp [take_append_self t l₂]

/-- Dropping an append at the left part's length yields the right part. -/
theorem drop_append_self {α : Type} :
    ∀ (l₁ l₂ : List α), (l₁ ++ l₂).drop l₁.length = l₂
  | [], _ => rfl
  | a :: t, l₂ => by simp [drop_append_self t l₂]

/-- With no effects at or after the iterator's position, the loop invokes the
remaining handlers in order and removes nothing. -/
theorem dispatchSim_no_effect :
    ∀ (fuel : Nat) (l : List DynHandler) (idx : Nat) (acc : List Nat),
    l.length - idx ≤ fuel →
    (∀ k (hk : k < l.length), idx ≤ k → (l.get ⟨k, hk⟩).effect = none) →
    dispatchSim fuel l idx acc = acc ++ (l.drop idx).map (·.hid)
  | 0, l, idx, acc, hfuel, _ => by
      have hge : l.length ≤ idx := by omega
      simp [dispatchSim, List.drop_eq_nil_of_le hge]
  | fuel + 1, l, idx, acc, hfuel, heff => by
      by_cases h : idx < l.length
      · have hmap : (l.drop idx).map (fun x => x.hid)
            = (l.get ⟨idx, h⟩).hid :: (l.drop (idx + 1)).map (fun x => x.hid) := by
          rw [List.drop_eq_getElem_cons h, List.map_cons]
          simp
        simp only [dispatchSim]
        rw [dif_pos h, dispatchSimStep_noeffect _ _ (heff idx h (Nat.le_refl idx)),
          dispatchSim_no_effect fuel l (idx + 1) _ (by omega)
            (fun k hk hk2 => heff k hk (by omega)), hmap]
        simp
      · have hge : l.length ≤ idx := by omega
        simp only [dispatchSim]
        rw [dif_neg h]
        simp [List.drop_eq_nil_of_le hge]

/-- Walking the iterator over an effect-free stretch accumulates those
handlers' invocations and changes nothing else. -/
theorem dispatchSim_walk :
    ∀ (d fuel : Nat) (l : List DynHandler) (idx : Nat) (acc : List Nat),
    idx + d ≤ l.length → l.length - idx ≤ fuel →
    (∀ k (hk : k < l.length), idx ≤ k → k < idx + d →
      (l.get ⟨k, hk⟩).effect = none) →
    dispatchSim fuel l idx acc
      = dispatchSim (fuel - d) l (idx + d)
          (acc ++ ((l.drop idx).take d).map (·.hid))
  | 0, fuel, l, idx, acc, _, _, _ => by simp
  | d + 1, fuel, l, idx, acc, hlen, hfuel, heff => by
      have hidx : idx < l.length := by omega
      obtain ⟨f', rfl⟩ : ∃ f', fuel = f' + 1 := ⟨fuel - 1, by omega⟩
      simp only [dispatchSim]
      rw [dif_pos hidx,
        dispatchSimStep_noeffect _ _ (heff idx hidx (Nat.le_refl idx) (by omega)),
        dispatchSim_walk d f' l (idx + 1) _ (by omega) (by omega)
          (fun k hk h1 h2 => heff k hk (by omega) (by omega))]
      have hfe : f' - d = f' + 1 - (d + 1) := by omega
      have hie : idx + 1 + d = idx + (d + 1) := by omega
      rw [hfe, hie]
      have hmap : ((l.drop idx).take (d + 1)).map (fun x => x.hid)
          = (l.get ⟨idx, hidx⟩).hid
              :: ((l.drop (idx + 1)).take d).map (fun x => x.hid) := by
        rw [List.drop_eq_getElem_cons hidx, List.take_succ_cons, List.map_cons]
        simp
      rw [hmap]
      simp

/-- C9: during a trigger, a handler `A` that unregisters a later-running
handler `B` (the only wrapper matching the unregistered callable) neither
derails the dispatch loop nor causes any other handler to be skipped: the
loop invokes exactly the handlers other than `B`, each once, in their
original order, and `B` — removed before the iterator reaches it — is never
invoked. -/
theorem C9_mid_dispatch_unregister (pre mid post : List DynHandler)
    (A B : DynHandler) (f : PyFunc)
    (heffA : A.effect = some f)
    (hpre : ∀ x ∈ pre, x.effect = none) (hmid : ∀ x ∈ mid, x.effect = none)
    (hpost : ∀ x ∈ post, x.effect = none)
    (hmatch : dynMatches f B = true)
    (hnmpre : ∀ x ∈ pre, dynMatches f x = false)
    (hnmA : dynMatches f A = false)
    (hnmmid : ∀ x ∈ mid, dynMatches f x = false)
    (hnmpost : ∀ x ∈ post, dynMatches f x = false) :
    dispatchRun (pre ++ A :: mid ++ B :: post)
      = (pre ++ A :: mid ++ post).map (·.hid) := by
  have hshape : pre ++ A :: mid ++ B :: post = pre ++ A :: (mid ++ B :: post) := by
    simp
  have hshape2 : pre ++ A :: mid ++ post = pre ++ A :: (mid ++ post) := by
    simp
  rw [hshape, hshape2]
  have hlen : (pre ++ A :: (mid ++ B :: post)).length
      = pre.length + mid.length + post.length + 2 := by
    simp
    omega
  have hprelt : pre.length < (pre ++ A :: (mid ++ B :: post)).length := by omega
  -- Phase 1: walk the effect-free prefix.
  have hwalk := dispatchSim_walk pre.length (pre ++ A :: (mid ++ B :: post)).length
    (pre ++ A :: (mid ++ B :: post)) 0 [] (by omega) (by omega)
    (fun k hk h1 h2 => by
      rw [get_append_lt pre (A :: (mid ++ B :: post)) k (by omega)]
      exact hpre _ (List.get_mem pre k (by omega)))
  unfold dispatchRun
  rw [hwalk]
  simp only [Nat.zero_add, List.drop_zero, List.nil_append]
  rw [take_append_self pre]
  -- Phase 2: the step at A's position removes exactly B.
  obtain ⟨f', hf'⟩ :
      ∃ f', (pre ++ A :: (mid ++ B :: post)).length - pre.length = f' + 1 :=
    ⟨(pre ++ A :: (mid ++ B :: post)).length - pre.length - 1, by omega⟩
  rw [hf']
  simp only [dispatchSim]
  rw [dif_pos hprelt]
  have hgetA : (pre ++ A :: (mid ++ B :: post)).get ⟨pre.length, hprelt⟩ = A :=
    get_append_length pre A (mid ++ B :: post) hprelt
  rw [hgetA]
  have hstep : dispatchSimStep (pre ++ A :: (mid ++ B :: post)) A
      = (pre ++ [A]) ++ (mid ++ post) := by
    unfold dispatchSimStep
    rw [heffA]
    dsimp only
    unfold dynUnregister
    have hassoc : pre ++ A :: (mid ++ B :: post) = (pre ++ A :: mid) ++ B :: post := by
      simp
    rw [hassoc]
    rw [unregList_unique (dynMatches f) (pre ++ A :: mid) B post hmatch
      (by
        intro x hx
        rcases List.mem_append.mp hx with hx' | hx'
        · exact hnmpre x hx'
        · rcases List.mem_cons.mp hx' with rfl | hx''
          · exact hnmA
          · exact hnmmid x hx'')
      hnmpost]
    simp
  rw [hstep]
  -- Phase 3: the rest of the loop is effect-free.
  have hlen2 : ((pre ++ [A]) ++ (mid ++ post)).length
      = pre.length + mid.length + post.length + 1 := by
    simp
    omega
  have hrest := dispatchSim_no_effect f' ((pre ++ [A]) ++ (mid ++ post))
    (pre.length + 1) (pre.map (·.hid) ++ [A.hid]) (by omega)
    (fun k hk hk1 => by
      have hk' : (pre ++ [A]).length ≤ k := by
        simpa using hk1
      have hmem := get_append_mem_right (pre ++ [A]) (mid ++ post) k hk hk'
      rcases List.mem_append.mp hmem with hm' | hm'
      · exact hmid _ hm'
      · exact hpost _ hm')
  rw [hrest]
  have hdrop : ((pre ++ [A]) ++ (mid ++ post)).drop (pre.length + 1) = mid ++ post := by
    have hlA : (pre ++ [A]).length = pre.length + 1 := by simp
    rw [← hlA]
    exact drop_append_self _ _
  rw [hdrop]
  simp

/-- A dynamic handler whose body unregisters `fA` from its signal. -/
def dA : DynHandler := ⟨1, fB, some fA⟩

/-- A plain dynamic handler. -/
def dB : DynHandler := ⟨2, fB, none⟩

/-- The dynamic wrapper of `fA` — the one `dA` unregisters. -/
def dC : DynHandler := ⟨3, fA, none⟩

/-- Another plain dynamic handler after the unregistered one. -/
def dD : DynHandler := ⟨4, fB, none⟩

/-- Witness for C9: handler 1 unregisters the `fA` wrapper (handler 3) that
would run after it; handlers 1, 2 and 4 all run, in order, and only the
unregistered handler 3 is skipped. -/
theorem C9_mid_dispatch_unregister_witness :
    dispatchRun [dA, dB, dC, dD] = [1, 2, 4] := by
  have h := C9_mid_dispatch_unregister [] [dB] [dD] dA dC fA rfl (by decide)
    (by decide) (by decide) (by decide) (by decide) (by decide) (by decide)
    (by decide)
  simpa using h

/-! ## C2 — call-count budgets across triggers -/

/-- The arguments of one trigger: the ambient world, the keyword arguments,
the per-call swallow override, and the completion order of the futures. -/
structure CallIn where
  w : World
  kwargs : List (String × Nat)
  swallowOv : Option Bool
  completion : List Nat

/-- Trigger a signal repeatedly, threading the signal state, collecting each
trigger's observable result. -/
def runCalls : Signal → List CallIn → Signal × List TriggerResult
  | s, [] => (s, [])
  | s, c :: rest =>
      let r := Signal.call c.w s c.kwargs c.swallowOv c.completion
      let t := runCalls r.sig rest
      (t.1, r :: t.2)

/-- How many outcome entries of one dispatch actually called the callable of
the handler carrying registration index `i`. -/
def countOuts (outs : List (Nat × Bool × HOutcome)) (i : Nat) : Nat :=
  (outs.filter (fun o => o.1 = i && invokedOut o.2.2)).length

/-- How many times one trigger called the callable of handler `i`. -/
def invocations (r : TriggerResult) (i : Nat) : Nat :=
  countOuts r.outs i

/-- How many times a sequence of triggers called the callable of handler `i`. -/
def totalInvocations (rs : List TriggerResult) (i : Nat) : Nat :=
  (rs.map (fun r => invocations r i)).sum

/-- A signal is well-formed when its handlers carry pairwise distinct
registration indices — true of real signals, whose wrappers draw fresh values
from the global `_idx_gen` counter. -/
def wfSignal (s : Signal) : Prop :=
  (s.iter_handlers.map (·.idx)).Nodup

/-- The budget invariant for handler `i`: the potential `t` is nonnegative,
and either no wrapper with index `i` remains (potential spent, `t = 0`) or
the unique wrapper's remaining budget is exactly `t`. -/
def BudgetInv (s : Signal) (i : Nat) (t : Int) : Prop :=
  0 ≤ t ∧ ((∀ h ∈ s.iter_handlers, h.idx ≠ i) ∧ t = 0 ∨
    ∃ h, h ∈ s.iter_handlers ∧ h.idx = i ∧ h.times = some t)

/-- Counting invocations distributes over an outcome entry. -/
theorem countOuts_cons (j : Nat) (b : Bool) (o : HOutcome)
    (rest : List (Nat × Bool × HOutcome)) (i : Nat) :
    countOuts ((j, b, o) :: rest) i
      = (if j = i ∧ invokedOut o = true then 1 else 0) + countOuts rest i := by
  unfold countOuts
  by_cases hc : j = i ∧ invokedOut o = true
  · simp [List.filter_cons, hc]
    omega
  · simp only [List.filter_cons]
    have : (decide (j = i) && invokedOut o) = false := by
      rcases Decidable.not_and_iff_or_not.mp hc with hj | ho
      · simp [hj]
      · simp [ho]
    simp [this, hc]

/-- The dispatch loop preserves the sequence of registration indices. -/
theorem dispatchList_idx_map (w : World) (sw : Bool) (kw : List (String × Nat)) :
    ∀ l : List SignalHandler,
      ((dispatchList w sw kw l).1).map (·.idx) = l.map (·.idx)
  | [] => by simp [dispatchList]
  | h :: rest => by
      have ih := dispatchList_idx_map w sw kw rest
      have hidx := SignalHandler.call_idx w h sw kw
      by_cases ha : h.async
      · simp [dispatchList, ha, hidx, ih]
      · have ha' : h.async = false := by simpa using ha
        rcases hc : (h.call w sw kw).2 with _ | _ | e | e <;>
          simp [dispatchList, ha', hc, hidx, ih]

/-- A dispatch over handlers none of which carries index `i` records no
invocation for `i` and leaves no wrapper with index `i`. -/
theorem dispatchList_absent (w : World) (sw : Bool) (kw : List (String × Nat))
    (i : Nat) :
    ∀ l : List SignalHandler, (∀ h ∈ l, h.idx ≠ i) →
      countOuts (dispatchList w sw kw l).2.2.1 i = 0 ∧
      (∀ h' ∈ (dispatchList w sw kw l).1, h'.idx ≠ i)
  | [], _ => by simp [dispatchList, countOuts]
  | h :: rest, hno => by
      have hh := hno h (by simp)
      have ih := dispatchList_absent w sw kw i rest (fun x hx => hno x (by simp [hx]))
      have hidx := SignalHandler.call_idx w h sw kw
      by_cases ha : h.async
      · constructor
        · simp only [dispatchList, ha, if_true]
          rw [countOuts_cons]
          simp [hh, ih.1]
        · intro h' hm'
          simp only [dispatchList, ha, if_true, List.mem_cons] at hm'
          rcases hm' with rfl | hm'
          · rw [hidx]; exact hh
          · exact ih.2 h' hm'
      · have ha' : h.async = false := by simpa using ha
        rcases hc : (h.call w sw kw).2 with _ | _ | e | e
        · constructor
          · simp only [dispatchList, ha', hc, Bool.false_eq_true, if_false]
            rw [countOuts_cons]
            simp [hh, ih.1]
          · intro h' hm'
            simp only [dispatchList, ha', hc, Bool.false_eq_true, if_false,
              List.mem_cons] at hm'
            rcases hm' with rfl | hm'
            · rw [hidx]; exact hh
            · exact ih.2 h' hm'
        · constructor
          · simp only [dispatchList, ha', hc, Bool.false_eq_true, if_false]
            rw [countOuts_cons]
            simp [hh, ih.1]
          · intro h' hm'
            simp only [dispatchList, ha', hc, Bool.false_eq_true, if_false,
              List.mem_cons] at hm'
            rcases hm' with rfl | hm'
            · rw [hidx]; exact hh
            · exact ih.2 h' hm'
        · constructor
          · simp only [dispatchList, ha', hc, Bool.false_eq_true, if_false]
            rw [countOuts_cons]
            simp [hh, countOuts]
          · intro h' hm'
            simp only [dispatchList, ha', hc, Bool.false_eq_true, if_false,
              List.mem_cons] at hm'
            rcases hm' with rfl | hm'
            · rw [hidx]; exact hh
            · exact hno h' (by simp [hm'])
        · constructor
          · simp only [dispatchList, ha', hc, Bool.false_eq_true, if_false]
            rw [countOuts_cons]
            simp [hh, countOuts]
          · intro h' hm'
            simp only [dispatchList, ha', hc, Bool.false_eq_true, if_false,
              List.mem_cons] at hm'
            rcases hm' with rfl | hm'
            · rw [hidx]; exact hh
            · exact hno h' (by simp [hm'])

/-- Two handlers of a well-formed signal with the same registration index
are the same wrapper. -/
theorem wf_unique (s : Signal) (hwf : wfSignal s) (h₁ h₂ : SignalHandler)
    (hm₁ : h₁ ∈ s.iter_handlers) (hm₂ : h₂ ∈ s.iter_handlers)
    (he : h₁.idx = h₂.idx) : h₁ = h₂ :=
  List.inj_on_of_nodup_map hwf hm₁ hm₂ he

/-- A dispatch over a well-formed handler list containing the wrapper `h`
with index `i` yields a wrapper with index `i` whose budget accounts exactly
for the recorded invocations: either `h` was left untouched (the loop aborted
before reaching it) with no invocation recorded, or it was processed by one
call with its invocation recorded. -/
theorem dispatchList_present (w : World) (sw : Bool) (kw : List (String × Nat))
    (i : Nat) :
    ∀ (l : List SignalHandler) (h : SignalHandler),
      (l.map (·.idx)).Nodup → h ∈ l → h.idx = i →
    ∃ h', h' ∈ (dispatchList w sw kw l).1 ∧ h'.idx = i ∧
      (h'.times = h.times ∧ countOuts (dispatchList w sw kw l).2.2.1 i = 0 ∨
       h' = (h.call w sw kw).1 ∧
         countOuts (dispatchList w sw kw l).2.2.1 i
           = (if invokedOut (h.call w sw kw).2 then 1 else 0))
  | [], h, _, hm, _ => by simp at hm
  | g :: rest, h, hnd, hm, hi => by
      have hndc : (g.idx :: rest.map (·.idx)).Nodup := by simpa using hnd
      have hnd1 : g.idx ∉ rest.map (·.idx) := (List.nodup_cons.mp hndc).1
      have hndrest : (rest.map (·.idx)).Nodup := (List.nodup_cons.mp hndc).2
      have hgidx := SignalHandler.call_idx w g sw kw
      rcases List.mem_cons.mp hm with rfl | hmem
      · -- the tracked handler is the head
        have hno : ∀ x ∈ rest, x.idx ≠ i := by
          intro x hx hxi
          exact hnd1 (by
            rw [hi, ← hxi]
            exact List.mem_map_of_mem _ hx)
        have habs := dispatchList_absent w sw kw i rest hno
        by_cases ha : h.async
        · refine ⟨(h.call w sw kw).1, ?_, by rw [hgidx, hi], Or.inr ⟨rfl, ?_⟩⟩
          · simp [dispatchList, ha]
          · simp only [dispatchList, ha, if_true]
            rw [countOuts_cons]
            simp [hi, habs.1]
        · have ha' : h.async = false := by simpa using ha
          rcases hc : (h.call w sw kw).2 with _ | _ | e | e
          · refine ⟨(h.call w sw kw).1, ?_, by rw [hgidx, hi], Or.inr ⟨rfl, ?_⟩⟩
            · simp [dispatchList, ha', hc]
            · simp only [dispatchList, ha', hc, Bool.false_eq_true, if_false]
              rw [countOuts_cons]
              simp [hi, habs.1, invokedOut]
          · refine ⟨(h.call w sw kw).1, ?_, by rw [hgidx, hi], Or.inr ⟨rfl, ?_⟩⟩
            · simp [dispatchList, ha', hc]
            · simp only [dispatchList, ha', hc, Bool.false_eq_true, if_false]
              rw [countOuts_cons]
              simp [hi, habs.1, invokedOut]
          · refine ⟨(h.call w sw kw).1, ?_, by rw [hgidx, hi], Or.inr ⟨rfl, ?_⟩⟩
            · simp [dispatchList, ha', hc]
            · simp only [dispatchList, ha', hc, Bool.false_eq_true, if_false]
              rw [countOuts_cons]
              simp [hi, countOuts, invokedOut]
          · refine ⟨(h.call w sw kw).1, ?_, by rw [hgidx, hi], Or.inr ⟨rfl, ?_⟩⟩
            · simp [dispatchList, ha', hc]
            · simp only [dispatchList, ha', hc, Bool.false_eq_true, if_false]
              rw [countOuts_cons]
              simp [hi, countOuts, invokedOut]
      · -- the tracked handler is in the tail
        have hgne : g.idx ≠ i := by
          intro hgi
          exact hnd1 (by
            rw [hgi, ← hi]
            exact List.mem_map_of_mem _ hmem)
        obtain ⟨h', hm', hi', hdisj⟩ :=
          dispatchList_present w sw kw i rest h hndrest hmem hi
        by_cases ha : g.async
        · refine ⟨h', ?_, hi', ?_⟩
          · simp only [dispatchList, ha, if_true]
            exact List.mem_cons_of_mem _ hm'
          · simp only [dispatchList, ha, if_true]
            rw [countOuts_cons]
            simpa [hgne] using hdisj
        · have ha' : g.async = false := by simpa using ha
          rcases hc : (g.call w sw kw).2 with _ | _ | e | e
          · refine ⟨h', ?_, hi', ?_⟩
            · simp only [dispatchList, ha', hc, Bool.false_eq_true, if_false]
              exact List.mem_cons_of_mem _ hm'
            · simp only [dispatchList, ha', hc, Bool.false_eq_true, if_false]
              rw [countOuts_cons]
              simpa [hgne] using hdisj
          · refine ⟨h', ?_, hi', ?_⟩
            · simp only [dispatchList, ha', hc, Bool.false_eq_true, if_false]
              exact List.mem_cons_of_mem _ hm'
            · simp only [dispatchList, ha', hc, Bool.false_eq_true, if_false]
              rw [countOuts_cons]
              simpa [hgne] using hdisj
          · refine ⟨h, ?_, hi, Or.inl ⟨rfl, ?_⟩⟩
            · simp only [dispatchList, ha', hc, Bool.false_eq_true, if_false]
              exact List.mem_cons_of_mem _ hmem
            · simp only [dispatchList, ha', hc, Bool.false_eq_true, if_false]
              rw [countOuts_cons]
              simp [hgne, countOuts]
          · refine ⟨h, ?_, hi, Or.inl ⟨rfl, ?_⟩⟩
            · simp only [dispatchList, ha', hc, Bool.false_eq_true, if_false]
              exact List.mem_cons_of_mem _ hmem
            · simp only [dispatchList, ha', hc, Bool.false_eq_true, if_false]
              rw [countOuts_cons]
              simp [hgne, countOuts]

/-- The sweep only removes wrappers: the swept chain is a sublist of the
original chain. -/
theorem sweep_iter_sublist (s : Signal) :
    List.Sublist s.sweep.iter_handlers s.iter_handlers := by
  unfold Signal.iter_handlers Signal.sweep
  dsimp only
  exact ((unregList_sublist _ s.handlersF).append
    (unregList_sublist _ s.handlersN)).append (unregList_sublist _ s.handlersL)

/-- A wrapper with a live budget survives the sweep. -/
theorem mem_sweep_of_times_ne (s : Signal) (h : SignalHandler)
    (hm : h ∈ s.iter_handlers) (ht : h.times ≠ some 0) :
    h ∈ s.sweep.iter_handlers := by
  have hp : (fun x : SignalHandler => decide (x.times = some 0)) h = false := by
    simpa using ht
  unfold Signal.iter_handlers at hm
  unfold Signal.iter_handlers Signal.sweep
  dsimp only
  rcases List.mem_append.mp hm with hm' | hm'
  · rcases List.mem_append.mp hm' with hf | hn
    · exact List.mem_append_left _ (List.mem_append_left _
        (mem_unregList_of_not_p _ _ h hf hp))
    · exact List.mem_append_left _ (List.mem_append_right _
        (mem_unregList_of_not_p _ _ h hn hp))
  · exact List.mem_append_right _ (mem_unregList_of_not_p _ _ h hm' hp)

/-- The sweep preserves well-formedness. -/
theorem wf_sweep (s : Signal) (hwf : wfSignal s) : wfSignal s.sweep :=
  List.Nodup.sublist ((sweep_iter_sublist s).map (·.idx)) hwf

/-- The trigger body preserves well-formedness. -/
theorem wf_callBody (w : World) (kw : List (String × Nat)) (sOv : Option Bool)
    (comp : List Nat) (s : Signal) (hwf : wfSignal s) :
    wfSignal (Signal.callBody w s kw sOv comp).sig := by
  unfold wfSignal
  rw [callBody_sig_iter, dispatchList_idx_map]
  exact wf_sweep s hwf

/-- One trigger body spends the tracked handler's budget exactly by its
recorded invocations, keeps the budget nonnegative, and keeps the handler
unique. -/
theorem callBody_budget_step (w : World) (kw : List (String × Nat))
    (sOv : Option Bool) (comp : List Nat) (s : Signal) (i : Nat) (t : Int)
    (hwf : wfSignal s) (hinv : BudgetInv s i t) :
    wfSignal (Signal.callBody w s kw sOv comp).sig ∧
    ∃ t', BudgetInv (Signal.callBody w s kw sOv comp).sig i t' ∧
      t' + (countOuts (Signal.callBody w s kw sOv comp).outs i : Int) = t := by
  refine ⟨wf_callBody w kw sOv comp s hwf, ?_⟩
  have hiter := callBody_sig_iter w s kw sOv comp
  have houts := callBody_outs w s kw sOv comp
  obtain ⟨ht0, hcase⟩ := hinv
  rcases hcase with ⟨habs, rfl⟩ | ⟨h, hm, hidx, htimes⟩
  · have habs1 : ∀ x ∈ s.sweep.iter_handlers, x.idx ≠ i := by
      intro x hx
      exact habs x ((sweep_iter_sublist s).subset hx)
    obtain ⟨hc0, habs2⟩ := dispatchList_absent w (sOv.getD s.swallow_exceptions)
      kw i _ habs1
    refine ⟨0, ⟨le_refl 0, Or.inl ⟨?_, rfl⟩⟩, ?_⟩
    · intro x hx
      rw [hiter] at hx
      exact habs2 x hx
    · rw [houts, hc0]
      simp
  · by_cases hsw : h ∈ s.sweep.iter_handlers
    · obtain ⟨h', hm', hi', hdisj⟩ := dispatchList_present w
        (sOv.getD s.swallow_exceptions) kw i s.sweep.iter_handlers h
        (wf_sweep s hwf) hsw hidx
      rcases hdisj with ⟨hteq, hc0⟩ | ⟨heq, hcnt⟩
      · refine ⟨t, ⟨ht0, Or.inr ⟨h', ?_, hi', by rw [hteq, htimes]⟩⟩, ?_⟩
        · rw [hiter]; exact hm'
        · rw [houts, hc0]; simp
      · have hct := SignalHandler.call_times w h (sOv.getD s.swallow_exceptions) kw
        by_cases hinvk : invokedOut (h.call w (sOv.getD s.swallow_exceptions) kw).2 = true
        · have ht' : h'.times = some (t - 1) := by
            rw [heq, hct.1]
            simp [hinvk, htimes]
          have htz : t ≠ 0 := by
            intro h0
            exact (hct.2 hinvk) (by rw [htimes, h0])
          refine ⟨t - 1, ⟨by omega, Or.inr ⟨h', by rw [hiter]; exact hm', hi', ht'⟩⟩, ?_⟩
          rw [houts, hcnt]
          simp only [hinvk, if_true]
          push_cast
          omega
        · have ht' : h'.times = some t := by
            rw [heq, hct.1]
            simp [hinvk, htimes]
          refine ⟨t, ⟨ht0, Or.inr ⟨h', by rw [hiter]; exact hm', hi', ht'⟩⟩, ?_⟩
          rw [houts, hcnt]
          simp [hinvk]
    · have htz : h.times = some 0 := by
        by_contra hne
        exact hsw (mem_sweep_of_times_ne s h hm hne)
      have ht00 : t = 0 := by
        rw [htimes] at htz
        exact Option.some.inj htz
      have habs1 : ∀ x ∈ s.sweep.iter_handlers, x.idx ≠ i := by
        intro x hx hxi
        have hxmem : x ∈ s.iter_handlers := (sweep_iter_sublist s).subset hx
        have hxh : x = h := wf_unique s hwf x h hxmem hm (by rw [hxi, hidx])
        exact hsw (hxh ▸ hx)
      obtain ⟨hc0, habs2⟩ := dispatchList_absent w (sOv.getD s.swallow_exceptions)
        kw i _ habs1
      refine ⟨0, ⟨le_refl 0, Or.inl ⟨?_, rfl⟩⟩, ?_⟩
      · intro x hx
        rw [hiter] at hx
        exact habs2 x hx
      · rw [houts, hc0, ht00]
        simp

/-- One trigger spends the tracked handler's budget exactly by its recorded
invocations (the `MissingIdentifier` path spends nothing). -/
theorem call_budget_step (c : CallIn) (s : Signal) (i : Nat) (t : Int)
    (hwf : wfSignal s) (hinv : BudgetInv s i t) :
    wfSignal (Signal.call c.w s c.kwargs c.swallowOv c.completion).sig ∧
    ∃ t', BudgetInv (Signal.call c.w s c.kwargs c.swallowOv c.completion).sig i t' ∧
      t' + (invocations (Signal.call c.w s c.kwargs c.swallowOv c.completion) i : Int)
        = t := by
  unfold Signal.call invocations
  rcases hid : s.identifier with _ | ident
  · exact callBody_budget_step c.w c.kwargs c.swallowOv c.completion s i t hwf hinv
  · by_cases he : ident = ""
    · simp only [he, if_true]
      exact callBody_budget_step c.w c.kwargs c.swallowOv c.completion s i t hwf hinv
    · by_cases hk : (pyLookup c.kwargs ident).isSome = true
      · simp only [he, if_false, hk, if_true]
        exact callBody_budget_step c.w c.kwargs c.swallowOv c.completion s i t hwf hinv
      · simp only [he, if_false, hk, Bool.false_eq_true]
        refine ⟨hwf, t, ⟨hinv.1, hinv.2⟩, ?_⟩
        simp [countOuts]

/-- A sequence of triggers spends the tracked handler's budget exactly by
the total recorded invocations. -/
theorem runCalls_budget (i : Nat) :
    ∀ (ins : List CallIn) (s : Signal) (t : Int),
    wfSignal s → BudgetInv s i t →
    wfSignal (runCalls s ins).1 ∧
    ∃ t', BudgetInv (runCalls s ins).1 i t' ∧
      t' + (totalInvocations (runCalls s ins).2 i : Int) = t
  | [], s, t, hwf, hinv => ⟨hwf, t, hinv, by simp [runCalls, totalInvocations]⟩
  | c :: rest, s, t, hwf, hinv => by
      obtain ⟨hwf1, t1, hinv1, hsum1⟩ := call_budget_step c s i t hwf hinv
      obtain ⟨hwf2, t2, hinv2, hsum2⟩ := runCalls_budget i rest
        (Signal.call c.w s c.kwargs c.swallowOv c.completion).sig t1 hwf1 hinv1
      refine ⟨?_, t2, ?_, ?_⟩
      · simpa [runCalls] using hwf2
      · simpa [runCalls] using hinv2
      · simp only [runCalls, totalInvocations, List.map_cons, List.sum_cons]
        simp only [totalInvocations] at hsum2
        push_cast
        push_cast at hsum1 hsum2
        omega

/-- C2 (amended): a handler registered with finite budget `N ≥ 0` is invoked
at most `N` times across any sequence of triggers, and any wrapper still
carrying its index afterwards has a nonnegative finite budget — the counter
never becomes negative. (Removal from the handler set happens in a later
trigger's pre-dispatch sweep, not immediately after the Nth invocation — see
the counterexample.) -/
theorem C2_call_limit (ins : List CallIn) (s : Signal) (h0 : SignalHandler)
    (N : Int) (hwf : wfSignal s) (hmem : h0 ∈ s.iter_handlers)
    (ht : h0.times = some N) (hN : 0 ≤ N) :
    (totalInvocations (runCalls s ins).2 h0.idx : Int) ≤ N ∧
    ∀ h' ∈ (runCalls s ins).1.iter_handlers, h'.idx = h0.idx →
      ∃ t : Int, h'.times = some t ∧ 0 ≤ t := by
  have hinv : BudgetInv s h0.idx N := ⟨hN, Or.inr ⟨h0, hmem, rfl, ht⟩⟩
  obtain ⟨hwf', t', hinv', hsum⟩ := runCalls_budget h0.idx ins s N hwf hinv
  constructor
  · have hpos := hinv'.1
    omega
  · intro h' hm' hidx'
    rcases hinv'.2 with ⟨habs, _⟩ | ⟨g, hg, hgidx, hgt⟩
    · exact absurd hidx' (habs h' hm')
    · have hhg : h' = g := wf_unique _ hwf' h' g hm' hg (by rw [hidx', hgidx])
      exact ⟨t', by rw [hhg, hgt], hinv'.1⟩

/-- A wrapper of `fA` with a budget of one call. -/
def hT1 : SignalHandler := mkSignalHandler fA false .NONE (some 1) none 110

/-- A signal holding only the once-only wrapper. -/
def sT1 : Signal :=
  { Signal.fresh "on_once" none false true with handlersN := [hT1] }

/-- Counterexample to C2 as stated: the once-only handler is invoked its
single allowed time by the trigger, yet it is still present in the handler
set right after that trigger (with its counter at zero) — it is only removed
by the sweep of the next trigger. -/
theorem C2_call_limit_counterexample :
    invocations (Signal.call trivWorld sT1 [] none []) 110 = 1 ∧
    (Signal.call trivWorld sT1 [] none []).sig.handlersN
      = [mkSignalHandler fA false .NONE (some 0) none 110] ∧
    (Signal.call trivWorld
        (Signal.call trivWorld sT1 [] none []).sig [] none []).sig.handlersN
      = [] := by
  decide

/-- A wrapper of `fA` with a budget of two calls. -/
def hT2 : SignalHandler := mkSignalHandler fA false .NONE (some 2) none 111

/-- A signal holding only the twice-only wrapper. -/
def sT2 : Signal :=
  { Signal.fresh "on_twice" none false true with handlersN := [hT2] }

/-- A trigger request with no keywords. -/
def c0 : CallIn := ⟨trivWorld, [], none, []⟩

/-- Witness for the amended C2: over three triggers, the budget-two handler
is invoked at most twice. -/
theorem C2_call_limit_witness :
    (totalInvocations (runCalls sT2 [c0, c0, c0]).2 111 : Int) ≤ 2 :=
  (C2_call_limit [c0, c0, c0] sT2 hT2 2 (by unfold wfSignal; decide) (by decide)
    (by decide) (by decide)).1

end Signals
